import Mathlib

/-!
Shallow embedding of the OpenClaw message-archive core (message-archive skill):
the SQLite-backed store (archive-db), the session event-log parser
(event-parser), the scanner (archive-scan) and the WhatsApp backfill
normalizer (backfill-parsers), together with proofs settling the frozen
claims about them.

Conventions of the embedding:
* JavaScript nullable values (null / undefined) are `Option`;
  the JS truthiness of a string-valued expression is `strTruthy`
  (both `null` and the empty string are falsy), of a number-valued
  expression `intTruthy` (0 is falsy).
* `new Date(x).getTime()` results are `Option Int` milliseconds, `none`
  standing for `NaN` (missing or unparseable timestamp); every JS
  comparison against `NaN` is false, which `jsLeOpt` mirrors.
* SQLite tables are lists of row structures in insertion order; rowids
  are `length + 1` (pure-append workloads only ever see that shape).
* SQL text parameters bound from JS go through `orNullStr`, mirroring
  the pervasive `x || null` normalization in the source.
-/

/-- JS truthiness of a string-or-null value: null, undefined and the
empty string are falsy. -/
def strTruthy : Option String → Bool
  | none => false
  | some s => s ≠ ""

/-- JS truthiness of a number-or-null value: null, undefined and 0 are falsy. -/
def intTruthy : Option Int → Bool
  | none => false
  | some n => n ≠ 0

/-- The JS idiom `x || null` on a string-valued `x`: empty string becomes null. -/
def orNullStr (v : Option String) : Option String :=
  if strTruthy v then v else none

/-- The JS idiom `x || null` on a number-valued `x`: 0 becomes null. -/
def orNullInt (v : Option Int) : Option Int :=
  if intTruthy v then v else none

/-- The JS idiom `x || d` on a number-valued `x` with default `d`. -/
def jsIntOr (v : Option Int) (d : Int) : Int :=
  if intTruthy v then v.getD 0 else d

/-- JS `<=` comparison where either side may be NaN (`none`): any
comparison involving NaN is false. -/
def jsLeOpt (ts w : Option Int) : Bool :=
  match ts, w with
  | some t, some b => t ≤ b
  | _, _ => false

/-- Characters treated as whitespace by the JS regex class. The model
covers the ASCII whitespace characters plus NBSP and the BOM; other
Unicode space-class code points do not occur in the inputs at stake. -/
def isJsWs (c : Char) : Bool :=
  c = ' ' || c = '\t' || c = '\n' || c = '\r' ||
  c = '\x0b' || c = '\x0c' || c = '\u00A0' || c = '\uFEFF'

/-- `String.replace` with the global regex for whitespace runs and the
replacement underscore: each maximal run of whitespace characters is
replaced by a single underscore. The Boolean argument records whether
the previous character belonged to a whitespace run. -/
def replaceWsRunsGo : Bool → List Char → List Char
  | _, [] => []
  | inRun, c :: cs =>
    if isJsWs c then
      (if inRun then [] else ['_']) ++ replaceWsRunsGo true cs
    else
      c :: replaceWsRunsGo false cs

/-- `s.replace(regex for whitespace runs, underscore)`. -/
def replaceWsRuns (s : String) : String :=
  String.mk (replaceWsRunsGo false s.data)

/-- Does `l` start with `pat`? (helper for the substring test). -/
def startsWithChars : List Char → List Char → Bool
  | _, [] => true
  | [], _ :: _ => false
  | c :: cs, p :: ps => c = p && startsWithChars cs ps

/-- Does `l` contain `pat` as a contiguous substring? -/
def containsChars (pat : List Char) : List Char → Bool
  | [] => startsWithChars [] pat
  | c :: cs => startsWithChars (c :: cs) pat || containsChars pat cs

/-- JS `String.prototype.includes`. -/
def strIncludes (s pat : String) : Bool :=
  containsChars pat.data s.data

/-- Decimal integer parser modelling `parseInt` on the strings the scanner
itself stores (an optional minus sign followed by decimal digits); `none`
models a NaN result. `parseInt` would also accept prefixes of garbage,
which never arises for checkpoint values the code writes. -/
def charDigit? (c : Char) : Option Nat :=
  if '0' ≤ c ∧ c ≤ '9' then some (c.toNat - Char.toNat '0') else none

/-- Accumulating decimal-digit parser over a character list. -/
def digitsVal : List Char → Nat → Option Nat
  | [], acc => some acc
  | c :: cs, acc =>
    match charDigit? c with
    | some d => digitsVal cs (acc * 10 + d)
    | none => none

/-- `parseInt(s)` on clean decimal strings, `none` for NaN. -/
def jsParseInt (s : String) : Option Int :=
  match s.data with
  | [] => none
  | '-' :: rest =>
    match rest with
    | [] => none
    | _ => (digitsVal rest 0).map (fun n => -(n : Int))
  | l => (digitsVal l 0).map (fun n => (n : Int))

/-- Insertion step of the insertion sort used to model SQL `ORDER BY`. -/
def insertSorted (le : α → α → Bool) (x : α) : List α → List α
  | [] => [x]
  | y :: ys => if le x y then x :: y :: ys else y :: insertSorted le x ys

/-- Insertion sort by a Boolean comparison, modelling SQL `ORDER BY`
(SQLite tie order is unspecified; only permutation facts are used). -/
def sortByBool (le : α → α → Bool) : List α → List α
  | [] => []
  | x :: xs => insertSorted le x (sortByBool le xs)

/-- SQL `LIMIT ? OFFSET ?` semantics: a negative offset behaves as 0,
a negative limit means no limit. -/
def applyLimitOffset (limit offset : Int) (l : List α) : List α :=
  let l := l.drop offset.toNat
  if limit < 0 then l else l.take limit.toNat

/-- JSON values, used for the verbatim `content_json` payloads (the
source keeps them as serialized strings; the model keeps the parsed
tree, since `JSON.parse(JSON.stringify(x)) = x` on the values at stake). -/
inductive Json where
  | null : Json
  | bool : Bool → Json
  | num : Int → Json
  | str : String → Json
  | arr : List Json → Json
  | obj : List (String × Json) → Json

/-- `target[k] = v` on a JS object modelled as an ordered key/value list:
an existing key is overwritten in place, a new key is appended. -/
def setKey : List (String × Json) → String → Json → List (String × Json)
  | [], k, v => [(k, v)]
  | (k0, v0) :: rest, k, v =>
    if k0 = k then (k, v) :: rest else (k0, v0) :: setKey rest k v

/-- Key lookup on a JS object modelled as an ordered key/value list. -/
def jlookup (k : String) : List (String × Json) → Option Json
  | [] => none
  | (k0, v) :: rest => if k0 = k then some v else jlookup k rest

/-- `Object.assign(target, source)` for an object source: each source key
overwrites or extends the target in order. A non-object source
contributes no keys that could collide with the identifier keys at stake
(string and array sources would only contribute numeric index keys), so
the model treats it as contributing nothing. -/
def jsonAssign (target : List (String × Json)) : Json → List (String × Json)
  | Json.obj kvs => kvs.foldl (fun acc kv => setKey acc kv.1 kv.2) target
  | _ => target

/-- `JSON.stringify({k: v})` drops keys whose value is undefined; this
helper renders an optional field as zero-or-one key/value pairs. -/
def optKey (k : String) (v : Option Json) : List (String × Json) :=
  match v with
  | some j => [(k, j)]
  | none => []

/-! ## Message side of the store (archive-db.js, messages tables) -/

/-- Input record for `insertMessage` (the normalized message record
produced by the backfill importers and the session message parsing). -/
structure MessageData where
  message_id : String
  internal_id : Option String := none
  session_key : String
  session_id : Option String := none
  direction : String
  sender_id : Option String := none
  sender_name : Option String := none
  recipient_id : Option String := none
  recipient_name : Option String := none
  channel : String
  device_id : Option String := none
  content_type : Option String := none
  content_text : Option String := none
  content_json : Option String := none
  reply_to_id : Option String := none
  thread_id : Option String := none
  timestamp : Int
  edited_at : Option Int := none
  deleted_at : Option Int := none
  created_at : Option Int := none
deriving DecidableEq

/-- A row of the `messages` table. -/
structure MessageRow where
  id : Nat
  message_id : String
  internal_id : Option String
  session_key : String
  session_id : Option String
  direction : String
  sender_id : Option String
  sender_name : Option String
  recipient_id : Option String
  recipient_name : Option String
  channel : String
  device_id : Option String
  content_type : String
  content_text : Option String
  content_json : Option String
  content_hash : String
  reply_to_id : Option String
  thread_id : Option String
  timestamp : Int
  edited_at : Option Int
  deleted_at : Option Int
  created_at : Int
deriving DecidableEq

/-- A row of the `edits` table. -/
structure EditRow where
  id : Nat
  message_id : String
  previous_content : String
  edited_at : Int
deriving DecidableEq

/-- A row of the `archive_state` key/value table. -/
structure StateRow where
  key : String
  value : String
  updated_at : Int
deriving DecidableEq

/-- `hashMessage`: the dedup fingerprint. The hash function itself
(`crypto`, SHA-256 hex) is a platform primitive, so the model abstracts
it as a parameter `H`; the payload string is built exactly as in the
source template. -/
def hashMessage (m : MessageData) (H : String → String) : String :=
  H ((m.sender_id.getD "") ++ "|" ++ toString m.timestamp ++ "|" ++ (m.content_text.getD ""))

/-! ## Event side: parser records (event-parser.js) -/

/-- The `cost` sub-object of a usage record. -/
structure CostObj where
  input : Option Int := none
  output : Option Int := none
  cacheRead : Option Int := none
  cacheWrite : Option Int := none
  total : Option Int := none
deriving DecidableEq

/-- The `usage` object carried by an assistant message. Token counts and
costs are modelled as integers; no claim depends on their arithmetic. -/
structure UsageObj where
  input : Option Int := none
  output : Option Int := none
  cacheRead : Option Int := none
  cacheWrite : Option Int := none
  totalTokens : Option Int := none
  cost : Option CostObj := none
deriving DecidableEq

/-- The normalized record the parser prepares for the `usage_stats`
satellite table (the `_usage` field). -/
structure UsageData where
  input_tokens : Int
  output_tokens : Int
  cache_read_tokens : Int
  cache_write_tokens : Int
  total_tokens : Int
  input_cost : Int
  output_cost : Int
  cache_read_cost : Int
  cache_write_cost : Int
  total_cost : Int
deriving DecidableEq

/-- One block of an embedded message content array. `btype` is the
`type` discriminator (`text`, `toolCall`, `toolUse`, `thinking`, ...);
only the fields the parser reads are modelled. -/
structure ContentBlock where
  btype : String
  id : String := ""
  name : Option String := none
  arguments : Option Json := none
  input : Option Json := none
  thinking : Option String := none
  thinkingSignature : Option String := none

/-- The embedded `message` object of a `message` source record. -/
structure MessageObj where
  role : Option String := none
  content : Option (List ContentBlock) := none
  provider : Option String := none
  model : Option String := none
  usage : Option UsageObj := none
  toolName : Option String := none
  isError : Bool := false

/-- A source event-log record after `JSON.parse` and timestamp
conversion, keyed on the `type` discriminator. The `timestamp` argument
of each constructor is the `new Date(raw.timestamp).getTime()` value
(`none` = NaN). `unknown` covers records whose `type` is not one of the
five recognized ones. A `message` record may lack its embedded message
object (`none`), in which case the parser code throws on property access
and the line is skipped by the caller. -/
inductive RawRecord where
  | session (id : String) (version : Option Int) (cwd : Option String) (timestamp : Option Int)
  | modelChange (id : String) (parentId : Option String) (timestamp : Option Int)
      (provider : Option String) (modelId : Option String)
  | thinkingLevel (id : String) (parentId : Option String) (timestamp : Option Int)
      (level : Option String)
  | custom (id : String) (parentId : Option String) (timestamp : Option Int)
      (customType : Option String) (data : Option Json)
  | message (id : String) (parentId : Option String) (timestamp : Option Int)
      (msg : Option MessageObj)
  | unknown (timestamp : Option Int)

/-- The timestamp field the line filter reads before dispatching. -/
def rawTimestamp : RawRecord → Option Int
  | .session _ _ _ ts => ts
  | .modelChange _ _ ts _ _ => ts
  | .thinkingLevel _ _ ts _ => ts
  | .custom _ _ ts _ _ => ts
  | .message _ _ ts _ => ts
  | .unknown ts => ts

/-- One physical line of an event-log file: blank, not valid JSON, or a
parsed record. -/
inductive Line where
  | blank
  | malformed
  | record (r : RawRecord)

/-- A normalized archive event as emitted by the parser (the argument of
`insertEvent`). The underscore-prefixed satellite fields of the source
(`_thinking_content`, `_thinking_signature`, `_usage`) are plain fields
here; `_content_size` is derived (a byte count of `_thinking_content`)
and recomputable, so it is not duplicated. -/
structure ParsedEvent where
  event_id : String
  parent_event_id : Option String := none
  session_id : Option String := none
  event_type : String
  event_subtype : Option String := none
  timestamp : Option Int := none
  content_json : Json := Json.null
  role : Option String := none
  tool_name : Option String := none
  model_provider : Option String := none
  model_id : Option String := none
  is_error : Int := 0
  thinking_content : Option String := none
  thinking_signature : Option String := none
  usage : Option UsageData := none

/-! ## Store row types for events (schema documented in
docs/TROUBLESHOOTING.md; the CREATE TABLE script itself lives outside
the tracked sources) -/

/-- A row of the `events` table. The `content_size` column (a byte count
of the serialized payload, never read by any claim) is not modelled. -/
structure EventRow where
  event_id : String
  parent_event_id : Option String
  session_key : String
  session_id : Option String
  event_type : String
  event_subtype : Option String
  timestamp : Option Int
  created_at : Int
  content_json : Json
  role : Option String
  tool_name : Option String
  model_provider : Option String
  model_id : Option String
  is_error : Int

/-- A row of the `thinking_blocks` satellite table (minus the derived
`content_size` column). -/
structure ThinkingRow where
  event_id : String
  thinking_content : String
  thinking_signature : Option String
  created_at : Int
deriving DecidableEq

/-- A row of the `usage_stats` satellite table. -/
structure UsageRow where
  event_id : String
  usage : UsageData
  model_provider : Option String
  model_id : Option String
  timestamp : Option Int
deriving DecidableEq

/-- The whole store: the tables the claims touch, in insertion order.
(The attachments, reactions, sessions and FTS shadow tables are not
referenced by any claim; FTS rows stay in lockstep with `messages` by
trigger, so content matching is modelled directly on the base rows.) -/
structure ArchiveDB where
  messages : List MessageRow := []
  edits : List EditRow := []
  events : List EventRow := []
  thinking_blocks : List ThinkingRow := []
  usage_stats : List UsageRow := []
  state : List StateRow := []

/-- The store right after `initializeSchema` on a fresh file. -/
def emptyDB : ArchiveDB := {}

/-! ## archive-db.js message operations -/

/-- `isDuplicate`: the three-stage duplicate predicate. Stage 1 matches
on `message_id`, stage 2 on the stored `content_hash`, stage 3 (guarded
by JS truthiness of the incoming `sender_id` and `content_text`) on
sender, content and a timestamp within 1000 ms. -/
def isDuplicate (db : ArchiveDB) (m : MessageData) (H : String → String) : Bool :=
  db.messages.any (fun r => r.message_id == m.message_id) ||
  db.messages.any (fun r => r.content_hash == hashMessage m H) ||
  (strTruthy m.sender_id && strTruthy m.content_text &&
    db.messages.any (fun r =>
      r.sender_id == m.sender_id &&
      (r.timestamp - m.timestamp).natAbs < 1000 &&
      r.content_text == m.content_text))

/-- The row `insertMessage` binds into the INSERT statement, with the
source defaulting (`|| null`, `|| 'text'`, `created_at || Date.now()`). -/
def mkMessageRow (db : ArchiveDB) (m : MessageData) (H : String → String) (now : Int) :
    MessageRow where
  id := db.messages.length + 1
  message_id := m.message_id
  internal_id := orNullStr m.internal_id
  session_key := m.session_key
  session_id := orNullStr m.session_id
  direction := m.direction
  sender_id := orNullStr m.sender_id
  sender_name := orNullStr m.sender_name
  recipient_id := orNullStr m.recipient_id
  recipient_name := orNullStr m.recipient_name
  channel := m.channel
  device_id := orNullStr m.device_id
  content_type := if strTruthy m.content_type then m.content_type.getD "" else "text"
  content_text := orNullStr m.content_text
  content_json := orNullStr m.content_json
  content_hash := hashMessage m H
  reply_to_id := orNullStr m.reply_to_id
  thread_id := orNullStr m.thread_id
  timestamp := m.timestamp
  edited_at := orNullInt m.edited_at
  deleted_at := orNullInt m.deleted_at
  created_at := jsIntOr m.created_at now

/-- Result of `insertMessage`: `ok db rowid?` (with `rowid? = none` for a
skipped duplicate) or `err` for a thrown SQLite constraint error
(`insertMessage` has no catch, so a constraint violation propagates). -/
inductive MsgInsertResult where
  | ok (db : ArchiveDB) (rowid : Option Nat)
  | err

/-- The `messages` table constraints the model enforces on insert:
UNIQUE `message_id`, the CHECK on `direction`, and the `reply_to_id`
foreign key into `messages(message_id)` (a row may satisfy the key
itself). NOT NULL columns are enforced by the row types. -/
def messageConstraintsOk (db : ArchiveDB) (row : MessageRow) : Bool :=
  !(db.messages.any (fun r => r.message_id == row.message_id)) &&
  (row.direction == "inbound" || row.direction == "outbound") &&
  (match row.reply_to_id with
   | some rid => rid == row.message_id || db.messages.any (fun r => r.message_id == rid)
   | none => true)

/-- `insertMessage(messageData, {skipIfExists})`. -/
def insertMessage (db : ArchiveDB) (m : MessageData) (skipIfExists : Bool)
    (H : String → String) (now : Int) : MsgInsertResult :=
  if skipIfExists && isDuplicate db m H then .ok db none
  else
    let row := mkMessageRow db m H now
    if messageConstraintsOk db row then
      .ok { db with messages := db.messages ++ [row] } (some row.id)
    else .err

/-- The loop body of `insertBatch`; `none` models the whole transaction
aborting (and rolling back) because a row threw a constraint error. -/
def insertBatchGo (H : String → String) (now : Int) :
    ArchiveDB → List MessageData → Option (ArchiveDB × Nat × Nat)
  | db, [] => some (db, 0, 0)
  | db, m :: rest =>
    match insertMessage db m true H now with
    | .ok db1 (some _) =>
      (insertBatchGo H now db1 rest).map (fun x => (x.1, x.2.1 + 1, x.2.2))
    | .ok db1 none =>
      (insertBatchGo H now db1 rest).map (fun x => (x.1, x.2.1, x.2.2 + 1))
    | .err => none

/-- `insertBatch(messages)`: one transaction, `skipIfExists` per row,
returning `{inserted, skipped}`. -/
def insertBatch (db : ArchiveDB) (msgs : List MessageData) (H : String → String)
    (now : Int) : Option (ArchiveDB × Nat × Nat) :=
  insertBatchGo H now db msgs

/-- `updateMessage(messageId, newContent, editTimestamp)`: silent no-op
when the message is absent; otherwise one `edits` row is inserted with
the previous content and the live row is rewritten. `none` models the
thrown NOT NULL violation when the current `content_text` is NULL
(the `edits.previous_content` column is NOT NULL). -/
def updateMessage (db : ArchiveDB) (messageId newContent : String) (editTs : Int) :
    Option ArchiveDB :=
  match db.messages.find? (fun r => r.message_id == messageId) with
  | none => some db
  | some cur =>
    match cur.content_text with
    | none => none
    | some prev =>
      let db1 := { db with
        edits := db.edits ++ [({ id := db.edits.length + 1, message_id := messageId,
                                 previous_content := prev, edited_at := editTs } : EditRow)] }
      some { db1 with
        messages := db1.messages.map (fun r =>
          if r.message_id == messageId then
            { r with content_text := some newContent, edited_at := some editTs }
          else r) }

/-- `softDeleteMessage(messageId, timestamp)`. -/
def softDeleteMessage (db : ArchiveDB) (messageId : String) (ts : Int) : ArchiveDB :=
  { db with
    messages := db.messages.map (fun r =>
      if r.message_id == messageId then { r with deleted_at := some ts } else r) }

/-- The filter object accepted by `queryMessages`, with the source
defaults. -/
structure MsgFilters where
  sessionKey : Option String := none
  channel : Option String := none
  senderId : Option String := none
  startTime : Option Int := none
  endTime : Option Int := none
  contentMatch : Option String := none
  limit : Int := 100
  offset : Int := 0
  includeDeleted : Bool := false

/-- All `queryMessages` WHERE conjuncts except the soft-delete one.
Every clause is guarded by the JS truthiness of the corresponding filter
field, exactly as the source appends SQL conjuncts. The FTS `MATCH` is
abstracted as the predicate `matchFn` applied to the query and the
(FTS-trigger-synchronized) row content. -/
def msgOtherFiltersOk (f : MsgFilters) (matchFn : String → Option String → Bool)
    (r : MessageRow) : Bool :=
  (!strTruthy f.sessionKey || r.session_key == f.sessionKey.getD "") &&
  (!strTruthy f.channel || r.channel == f.channel.getD "") &&
  (!strTruthy f.senderId || r.sender_id == f.senderId) &&
  (!intTruthy f.startTime || f.startTime.getD 0 ≤ r.timestamp) &&
  (!intTruthy f.endTime || r.timestamp ≤ f.endTime.getD 0) &&
  (!strTruthy f.contentMatch || matchFn (f.contentMatch.getD "") r.content_text)

/-- The full WHERE predicate of `queryMessages`. -/
def msgRowKeep (f : MsgFilters) (matchFn : String → Option String → Bool)
    (r : MessageRow) : Bool :=
  msgOtherFiltersOk f matchFn r && (f.includeDeleted || r.deleted_at == none)

/-- `queryMessages(filters)`: WHERE, `ORDER BY timestamp DESC`,
`LIMIT ? OFFSET ?`. -/
def queryMessages (db : ArchiveDB) (f : MsgFilters)
    (matchFn : String → Option String → Bool) : List MessageRow :=
  applyLimitOffset f.limit f.offset
    (sortByBool (fun a b => b.timestamp ≤ a.timestamp)
      (db.messages.filter (msgRowKeep f matchFn)))

/-! ## event-parser.js -/

/-- Serialization of a usage object back to JSON (for `content_json`);
keys in source order, undefined keys dropped. -/
def costToJson (c : CostObj) : Json :=
  Json.obj (optKey "input" (c.input.map Json.num) ++
    optKey "output" (c.output.map Json.num) ++
    optKey "cacheRead" (c.cacheRead.map Json.num) ++
    optKey "cacheWrite" (c.cacheWrite.map Json.num) ++
    optKey "total" (c.total.map Json.num))

/-- Serialization of the `usage` object for `content_json`. -/
def usageToJson (u : UsageObj) : Json :=
  Json.obj (optKey "input" (u.input.map Json.num) ++
    optKey "output" (u.output.map Json.num) ++
    optKey "cacheRead" (u.cacheRead.map Json.num) ++
    optKey "cacheWrite" (u.cacheWrite.map Json.num) ++
    optKey "totalTokens" (u.totalTokens.map Json.num) ++
    optKey "cost" (u.cost.map costToJson))

/-- Serialization of one content block for `JSON.stringify(msg)`. -/
def blockToJson (b : ContentBlock) : Json :=
  Json.obj ([("type", Json.str b.btype), ("id", Json.str b.id)] ++
    optKey "name" (b.name.map Json.str) ++
    optKey "arguments" b.arguments ++
    optKey "input" b.input ++
    optKey "thinking" (b.thinking.map Json.str) ++
    optKey "thinkingSignature" (b.thinkingSignature.map Json.str))

/-- `JSON.stringify(msg)` for the main message event payload (the fields
the model tracks, in source order; undefined fields are dropped). -/
def msgToJson (m : MessageObj) : Json :=
  Json.obj (optKey "role" (m.role.map Json.str) ++
    optKey "content" ((m.content.map (fun bs => Json.arr (bs.map blockToJson)))) ++
    optKey "provider" (m.provider.map Json.str) ++
    optKey "model" (m.model.map Json.str) ++
    optKey "usage" (m.usage.map usageToJson) ++
    optKey "toolName" (m.toolName.map Json.str))

/-- `block.arguments || block.input` (JS or on two possibly-undefined
JSON values; an explicitly falsy `arguments` falls through like the
source). -/
def jsonOrElse (a b : Option Json) : Json :=
  let truthy : Json → Bool := fun j =>
    match j with
    | Json.null => false
    | Json.bool x => x
    | Json.num n => n ≠ 0
    | Json.str s => s ≠ ""
    | Json.arr _ => true
    | Json.obj _ => true
  match a with
  | some v => if truthy v then v else (b.getD Json.null)
  | none => b.getD Json.null

/-- The `_usage` record computed from the usage object (`|| 0` on every
field, `usage.cost || {}` first). -/
def mkUsageData (u : UsageObj) : UsageData :=
  let c := u.cost.getD {}
  { input_tokens := u.input.getD 0
    output_tokens := u.output.getD 0
    cache_read_tokens := u.cacheRead.getD 0
    cache_write_tokens := u.cacheWrite.getD 0
    total_tokens := u.totalTokens.getD 0
    input_cost := c.input.getD 0
    output_cost := c.output.getD 0
    cache_read_cost := c.cacheRead.getD 0
    cache_write_cost := c.cacheWrite.getD 0
    total_cost := c.total.getD 0 }

/-- `parseSessionEvent`. -/
def parseSessionEvent (id : String) (version : Option Int) (cwd : Option String)
    (ts : Option Int) : ParsedEvent where
  event_id := id
  parent_event_id := none
  session_id := some id
  event_type := "session"
  timestamp := ts
  content_json := Json.obj (optKey "version" (version.map Json.num) ++
    optKey "cwd" (cwd.map Json.str))

/-- `parseModelChangeEvent`. -/
def parseModelChangeEvent (id : String) (parentId : Option String) (ts : Option Int)
    (provider modelId : Option String) : ParsedEvent where
  event_id := id
  parent_event_id := orNullStr parentId
  session_id := none
  event_type := "model_change"
  timestamp := ts
  content_json := Json.obj (optKey "provider" (provider.map Json.str) ++
    optKey "modelId" (modelId.map Json.str))
  model_provider := provider
  model_id := modelId

/-- `parseThinkingLevelEvent`. -/
def parseThinkingLevelEvent (id : String) (parentId : Option String) (ts : Option Int)
    (level : Option String) : ParsedEvent where
  event_id := id
  parent_event_id := orNullStr parentId
  session_id := none
  event_type := "thinking_level_change"
  timestamp := ts
  content_json := Json.obj (optKey "thinkingLevel" (level.map Json.str))

/-- `parseCustomEvent`. -/
def parseCustomEvent (id : String) (parentId : Option String) (ts : Option Int)
    (customType : Option String) (data : Option Json) : ParsedEvent where
  event_id := id
  parent_event_id := orNullStr parentId
  session_id := none
  event_type := "custom"
  event_subtype := orNullStr customType
  timestamp := ts
  content_json := Json.obj (optKey "customType" (customType.map Json.str) ++
    optKey "data" data)

/-- The synthetic `tool_call` event for one toolCall/toolUse block. -/
def toolCallEvent (id : String) (ts : Option Int) (b : ContentBlock) : ParsedEvent where
  event_id := id ++ "_tool_" ++ b.id
  parent_event_id := some id
  session_id := none
  event_type := "tool_call"
  timestamp := ts
  content_json := Json.obj ([("id", Json.str b.id)] ++
    optKey "name" (b.name.map Json.str) ++ [("arguments", jsonOrElse b.arguments b.input)])
  tool_name := b.name

/-- The synthetic `thinking_block` event for a thinking block. -/
def thinkingBlockEvent (id : String) (ts : Option Int) (b : ContentBlock) : ParsedEvent :=
  let thinkingContent := b.thinking.getD ""
  { event_id := id ++ "_thinking"
    parent_event_id := some id
    session_id := none
    event_type := "thinking_block"
    timestamp := ts
    content_json := Json.obj [("type", Json.str "thinking"),
      ("has_signature", Json.bool (strTruthy b.thinkingSignature)),
      ("size_bytes", Json.num thinkingContent.utf8ByteSize)]
    thinking_content := some thinkingContent
    thinking_signature := orNullStr b.thinkingSignature }

/-- The synthetic `usage_stats` event for an assistant usage object. -/
def usageStatsEvent (id : String) (ts : Option Int) (m : MessageObj) (u : UsageObj) :
    ParsedEvent where
  event_id := id ++ "_usage"
  parent_event_id := some id
  session_id := none
  event_type := "usage_stats"
  timestamp := ts
  content_json := usageToJson u
  model_provider := orNullStr m.provider
  model_id := orNullStr m.model
  usage := some (mkUsageData u)

/-- `parseMessageEvent`: the main message (or tool result) event followed
by the synthetic children extracted from assistant content and usage. -/
def parseMessageEvent (id : String) (parentId : Option String) (ts : Option Int)
    (msg : MessageObj) : List ParsedEvent :=
  let isToolResult := msg.role == some "toolResult"
  let mainEvent : ParsedEvent :=
    { event_id := id
      parent_event_id := orNullStr parentId
      session_id := none
      event_type := if isToolResult then "tool_result" else "message"
      timestamp := ts
      content_json := msgToJson msg
      role := msg.role
      tool_name := if isToolResult then msg.toolName else none
      model_provider := orNullStr msg.provider
      model_id := orNullStr msg.model
      is_error := if isToolResult then (if msg.isError then 1 else 0) else 0 }
  let children :=
    if msg.role == some "assistant" && msg.content.isSome then
      (msg.content.getD []).flatMap (fun b =>
        (if b.btype == "toolCall" || b.btype == "toolUse" then [toolCallEvent id ts b]
         else []) ++
        (if b.btype == "thinking" then [thinkingBlockEvent id ts b] else []))
    else []
  let usageEvents :=
    if msg.role == some "assistant" then
      match msg.usage with
      | some u => [usageStatsEvent id ts msg u]
      | none => []
    else []
  mainEvent :: (children ++ usageEvents)

/-- `parseEvent`: dispatch on the `type` discriminator; unknown types
produce nothing; a `message` record without its embedded object throws
in the source, which the line loop catches, so it also produces nothing. -/
def parseEvent : RawRecord → List ParsedEvent
  | .session id version cwd ts => [parseSessionEvent id version cwd ts]
  | .modelChange id p ts provider modelId => [parseModelChangeEvent id p ts provider modelId]
  | .thinkingLevel id p ts level => [parseThinkingLevelEvent id p ts level]
  | .custom id p ts customType data => [parseCustomEvent id p ts customType data]
  | .message id p ts (some msg) => parseMessageEvent id p ts msg
  | .message _ _ _ none => []
  | .unknown _ => []

/-- The per-line step of `parseEvents`: blank lines and unparseable lines
are skipped, records at or before the watermark are skipped (a NaN
timestamp compares false and passes). -/
def parseLineStep (since : Option Int) : Line → List ParsedEvent
  | .blank => []
  | .malformed => []
  | .record r => if jsLeOpt (rawTimestamp r) since then [] else parseEvent r

/-- `parseEvents` over the split lines of an existing file. -/
def parseEvents (lines : List Line) (since : Option Int) : List ParsedEvent :=
  lines.flatMap (parseLineStep since)

/-- `parseEvents` including the existence check: a missing file
(`none`) is a hard error (the source throws). -/
def parseEventsFile (file : Option (List Line)) (since : Option Int) :
    Except Unit (List ParsedEvent) :=
  match file with
  | none => .error ()
  | some lines => .ok (parseEvents lines since)

/-! ## archive-db.js event operations -/

/-- Outcome of one `insertEvent` call: a fresh rowid, a skipped
duplicate (`null` in the source), or a thrown constraint error. -/
inductive InsertOutcome where
  | inserted (rowid : Nat)
  | skipped
  | errored
deriving DecidableEq

/-- Does the events table contain a row with this `event_id`? -/
def hasEventId (rows : List EventRow) (i : String) : Bool :=
  rows.any (fun r => r.event_id == i)

/-- The row `insertEvent` binds into the INSERT (with the `|| null`
normalizations of the source). -/
def mkEventRow (e : ParsedEvent) (sessionKey : String) (now : Int) : EventRow where
  event_id := e.event_id
  parent_event_id := orNullStr e.parent_event_id
  session_key := sessionKey
  session_id := orNullStr e.session_id
  event_type := e.event_type
  event_subtype := orNullStr e.event_subtype
  timestamp := e.timestamp
  created_at := now
  content_json := e.content_json
  role := orNullStr e.role
  tool_name := orNullStr e.tool_name
  model_provider := orNullStr e.model_provider
  model_id := orNullStr e.model_id
  is_error := e.is_error

/-- `insertThinkingBlock`: append unless the UNIQUE `event_id` already
exists (that error is caught and ignored in the source). -/
def insertThinkingBlock (db : ArchiveDB) (eventId content : String)
    (signature : Option String) (now : Int) : ArchiveDB :=
  if db.thinking_blocks.any (fun r => r.event_id == eventId) then db
  else { db with thinking_blocks := db.thinking_blocks ++
    [{ event_id := eventId, thinking_content := content,
       thinking_signature := orNullStr signature, created_at := now }] }

/-- `insertUsageStats`: append unless the UNIQUE `event_id` already
exists (that error is caught and ignored in the source). -/
def insertUsageStats (db : ArchiveDB) (eventId : String) (u : UsageData)
    (provider modelId : Option String) (ts : Option Int) : ArchiveDB :=
  if db.usage_stats.any (fun r => r.event_id == eventId) then db
  else { db with usage_stats := db.usage_stats ++
    [{ event_id := eventId, usage := u, model_provider := orNullStr provider,
       model_id := orNullStr modelId, timestamp := ts }] }

/-- `insertEvent(eventData, sessionKey, {skipIfExists})`, with the events
table constraints. The UNIQUE `event_id` constraint and the
`parent_event_id REFERENCES events(event_id)` foreign key follow the
schema documented in docs/TROUBLESHOOTING.md (its CREATE script is not
among the tracked sources), as is the NOT NULL on `session_id`; `fkOn`
is the effective `PRAGMA foreign_keys` state. A row whose parent is
itself satisfies the deferred-row check SQLite applies. -/
def insertEvent (db : ArchiveDB) (e0 : ParsedEvent) (sessionKey : String)
    (skipIfExists : Bool) (fkOn : Bool) (now : Int) : ArchiveDB × InsertOutcome :=
  let e := if !strTruthy e0.session_id && e0.event_type == "session" then
      { e0 with session_id := some e0.event_id }
    else e0
  if skipIfExists && hasEventId db.events e.event_id then (db, .skipped)
  else if hasEventId db.events e.event_id then (db, .errored)
  else if (orNullStr e.session_id).isNone then (db, .errored)
  else if fkOn &&
      (match orNullStr e.parent_event_id with
       | some p => !(p == e.event_id || hasEventId db.events p)
       | none => false) then (db, .errored)
  else
    let rowid := db.events.length + 1
    let db1 := { db with events := db.events ++ [mkEventRow e sessionKey now] }
    let db2 :=
      if e.event_type == "thinking_block" && strTruthy e.thinking_content then
        insertThinkingBlock db1 e.event_id (e.thinking_content.getD "")
          e.thinking_signature now
      else db1
    let db3 :=
      if e.event_type == "usage_stats" then
        match e.usage with
        | some u => insertUsageStats db2 e.event_id u e.model_provider e.model_id e.timestamp
        | none => db2
      else db2
    (db3, .inserted rowid)

/-- Counters returned by `insertEventBatch`. -/
structure BatchResult where
  inserted : Nat := 0
  skipped : Nat := 0
  errors : Nat := 0
deriving DecidableEq

/-- Options of `insertEventBatch` (the fields the source reads, with its
defaults). -/
structure EventBatchOptions where
  skipIfExists : Bool := true
  sessionId : Option String := none
  disableForeignKeys : Bool := false

/-- The transaction loop of `insertEventBatch`: each row inserts, skips,
or throws; a thrown row is caught, counted in `errors`, and the loop
continues with the store unchanged by that row. -/
def insertEventBatchGo (sessionKey : String) (skipIfExists fkOn : Bool) (now : Int) :
    ArchiveDB → List ParsedEvent → ArchiveDB × BatchResult
  | db, [] => (db, {})
  | db, e :: rest =>
    let (db1, out) := insertEvent db e sessionKey skipIfExists fkOn now
    let (db2, r) := insertEventBatchGo sessionKey skipIfExists fkOn now db1 rest
    (db2, match out with
      | .inserted _ => { r with inserted := r.inserted + 1 }
      | .skipped => { r with skipped := r.skipped + 1 }
      | .errored => { r with errors := r.errors + 1 })

/-- `insertEventBatch(events, sessionKey, options)`: resolve the batch
session id (from the options or the first `session` event), back-fill it
on every event whose own `session_id` is falsy, optionally suspend
foreign keys, then run the transaction loop. -/
def insertEventBatch (db : ArchiveDB) (events : List ParsedEvent) (sessionKey : String)
    (opts : EventBatchOptions) (now : Int) : ArchiveDB × BatchResult :=
  let sessionId :=
    if strTruthy opts.sessionId then opts.sessionId
    else
      match events.find? (fun e => e.event_type == "session") with
      | some se => se.session_id
      | none => none
  let events := events.map (fun e =>
    if strTruthy e.session_id then e else { e with session_id := sessionId })
  insertEventBatchGo sessionKey opts.skipIfExists (!opts.disableForeignKeys) now db events

/-! ## Query surface used by the export (archive-db.js) -/

/-- `getSessionEvents(sessionId)` as the export uses it (no time range,
no type filter): the rows of the session ordered by `timestamp ASC`
(SQLite sorts NULLs first; tie order is unspecified and only permutation
facts are relied on). The optional thinking/usage joins only attach
satellite data that the export never reads, so they are not modelled. -/
def getSessionEvents (db : ArchiveDB) (sessionId : String) : List EventRow :=
  sortByBool (fun a b => a.timestamp.isNone || jsLeOpt a.timestamp b.timestamp)
    (db.events.filter (fun r => r.session_id == some sessionId))

/-- The event types the export omits. -/
def isSyntheticType (t : String) : Bool :=
  t == "tool_call" || t == "thinking_block" || t == "usage_stats"

/-- One reconstructed line of `exportSessionAsJsonl`, for an event whose
timestamp milliseconds are `t`; `isoOfMs` abstracts
`new Date(t).toISOString()`. The base keys are written first, `parentId`
only for a truthy stored parent, then the parsed `content_json` is
merged over them with `Object.assign`. -/
def exportLine (e : EventRow) (t : Int) (isoOfMs : Int → String) : Json :=
  let base := [("type", Json.str (if e.event_type == "tool_result" then "message"
                 else e.event_type)),
               ("id", Json.str e.event_id),
               ("timestamp", Json.str (isoOfMs t))]
  let base := base ++
    (if strTruthy e.parent_event_id then [("parentId", Json.str (e.parent_event_id.getD ""))]
     else [])
  Json.obj (jsonAssign base e.content_json)

/-- `exportSessionAsJsonl(sessionId)`: skip synthetic events, rebuild one
line per remaining event. The result is the list of line objects (their
serialization and newline join is abstracted). A stored NULL timestamp
(SQLite stores a NaN bind as NULL) renders as `new Date(null)`, the 1970
epoch, i.e. millisecond 0. -/
def exportSessionAsJsonl (db : ArchiveDB) (sessionId : String) (isoOfMs : Int → String) :
    List Json :=
  ((getSessionEvents db sessionId).filter
    (fun e => !isSyntheticType e.event_type)).map
      (fun e => exportLine e (e.timestamp.getD 0) isoOfMs)

/-! ## archive-scan.js (events mode, one session file) -/

/-- `checkpoint(key)` (read). -/
def checkpointGet (db : ArchiveDB) (key : String) : Option String :=
  (db.state.find? (fun r => r.key == key)).map (fun r => r.value)

/-- `checkpoint(key, value)` (upsert). -/
def checkpointSet (db : ArchiveDB) (key value : String) (now : Int) : ArchiveDB :=
  if db.state.any (fun r => r.key == key) then
    { db with state := db.state.map (fun r =>
        if r.key == key then { r with value := value, updated_at := now } else r) }
  else
    { db with state := db.state ++ [{ key := key, value := value, updated_at := now }] }

/-- The events-mode checkpoint key. -/
def EVENTS_CHECKPOINT_KEY : String := "last_events_scan_timestamp"

/-- One file of `scanEvents`: read the watermark
(`parseInt(checkpoint || "0")`, forced to 0 under `--force`), parse the
file above the watermark, commit the batch with the session id from the
file basename, `skipIfExists`, and foreign keys suspended exactly under
`--force`; finally advance the checkpoint to the end-of-run wall clock.
An empty parse skips the batch (the `continue` in the loop). -/
def scanEventsFile (db : ArchiveDB) (file : List Line) (sessionId : String)
    (force : Bool) (now : Int) : ArchiveDB × BatchResult :=
  let stored := checkpointGet db EVENTS_CHECKPOINT_KEY
  let lastTimestamp := jsParseInt (if strTruthy stored then stored.getD "" else "0")
  let lastTimestamp := if force then some 0 else lastTimestamp
  let events := parseEvents file lastTimestamp
  let (db1, res) :=
    if events.isEmpty then (db, ({} : BatchResult))
    else insertEventBatch db events "agent:main:main"
      { skipIfExists := true, sessionId := some sessionId, disableForeignKeys := force } now
  (checkpointSet db1 EVENTS_CHECKPOINT_KEY (toString now) now, res)

/-! ## backfill-parsers.js, WhatsApp text export -/

/-- A chat line already matched by one of the two date-time regexes:
date and time captures, trimmed sender, text (with any continuation
lines appended). -/
structure WAParsedLine where
  date : String
  time : String
  sender : String
  text : String
deriving DecidableEq

/-- Content-type detection of the WhatsApp normalizer (first matching
marker wins, in source order). -/
def waContent (text : String) : String × String :=
  if strIncludes text "<Media omitted>" || strIncludes text "image omitted" then
    ("image", "[Image]")
  else if strIncludes text "video omitted" then ("video", "[Video]")
  else if strIncludes text "audio omitted" || strIncludes text "voice message" then
    ("audio", "[Audio]")
  else if strIncludes text "document omitted" || strIncludes text "attached:" then
    ("document", "[Document]")
  else if strIncludes text "location:" then ("location", text)
  else if strIncludes text "sticker omitted" then ("sticker", "[Sticker]")
  else ("text", text)

/-- The verbatim `JSON.stringify(parsed)` copy (string escaping elided;
no claim reads this field back). -/
def waContentJson (pd : WAParsedLine) : String :=
  "\x7b\"date\":\"" ++ pd.date ++ "\",\"time\":\"" ++ pd.time ++
  "\",\"sender\":\"" ++ pd.sender ++ "\",\"text\":\"" ++ pd.text ++ "\"\x7d"

/-- `WhatsAppExportParser.normalizeMessage`. The datetime parse
`new Date(date + " " + time).getTime()` is abstracted as the function
argument `parseDateTime` (it never throws, so the fallback catch of the
source is dead code). The minted `message_id` is
`whatsapp_export_<timestamp>_<sender with whitespace runs replaced by
underscores>`. -/
def waNormalizeMessage (pd : WAParsedLine) (parseDateTime : String → Int)
    (now : Int) : MessageData :=
  let timestamp := parseDateTime (pd.date ++ " " ++ pd.time)
  let ct := waContent pd.text
  { message_id := "whatsapp_export_" ++ toString timestamp ++ "_" ++ replaceWsRuns pd.sender
    session_key := "imported:whatsapp:export"
    direction := if pd.sender == "You" then "outbound" else "inbound"
    sender_name := some pd.sender
    channel := "whatsapp"
    content_type := some ct.1
    content_text := some ct.2
    content_json := some (waContentJson pd)
    timestamp := timestamp
    created_at := some now }

/-! ## Spec-side minted-id formula (for the id-stability statement) -/

/-- The synthetic event-id scheme as the specification words it:
the parent message id, then `{parent_id}_tool_{tool_block_id}` per
toolCall/toolUse block and `{parent_id}_thinking` per thinking block in
content order, then `{parent_id}_usage` when a usage object is present
(assistant messages only). It depends on nothing but the source record. -/
def mintedEventIds (id : String) (msg : MessageObj) : List String :=
  id ::
  ((if msg.role == some "assistant" && msg.content.isSome then
      (msg.content.getD []).flatMap (fun b =>
        (if b.btype == "toolCall" || b.btype == "toolUse" then [id ++ "_tool_" ++ b.id]
         else []) ++
        (if b.btype == "thinking" then [id ++ "_thinking"] else []))
    else []) ++
   (if msg.role == some "assistant" && msg.usage.isSome then [id ++ "_usage"] else []))

/-- Per-batch precondition under which every row of an event batch
inserts cleanly: walking the batch in order, each event id is fresh with
respect to the ids seen so far, its `session_id` is truthy, and its
(normalized) parent is absent, itself, or an id already present. -/
def batchInsertsCleanly (ids : List String) : List ParsedEvent → Bool
  | [] => true
  | e :: rest =>
    !(ids.contains e.event_id) &&
    strTruthy e.session_id &&
    (match orNullStr e.parent_event_id with
     | some p => p == e.event_id || ids.contains p
     | none => true) &&
    batchInsertsCleanly (e.event_id :: ids) rest

/-- The ids of the toolCall/toolUse blocks of a content array, in order. -/
def toolIdsOf (bs : List ContentBlock) : List String :=
  (bs.filter (fun b => b.btype == "toolCall" || b.btype == "toolUse")).map (fun b => b.id)

/-- The number of thinking blocks of a content array. -/
def thinkCount (bs : List ContentBlock) : Nat :=
  (bs.filter (fun b => b.btype == "thinking")).length

/-- The synthetic child ids minted for a content array (the inner part
of `mintedEventIds`). -/
def childEventIds (id : String) (bs : List ContentBlock) : List String :=
  bs.flatMap (fun b =>
    (if b.btype == "toolCall" || b.btype == "toolUse" then [id ++ "_tool_" ++ b.id]
     else []) ++
    (if b.btype == "thinking" then [id ++ "_thinking"] else []))

/-- A stored `content_json` body that does not itself carry any of the
identifier keys the export writes (`type`, `id`, `timestamp`,
`parentId`); every payload the event parser produces satisfies this. -/
def bodyKeysClear : Json → Bool
  | Json.obj kvs => kvs.all (fun kv =>
      !(kv.1 == "type" || kv.1 == "id" || kv.1 == "timestamp" || kv.1 == "parentId"))
  | _ => true

/-- A message record that satisfies the `messages` table constraints on
any store (valid `direction`, no `reply_to_id` reference). -/
def validMessageData (m : MessageData) : Bool :=
  (m.direction == "inbound" || m.direction == "outbound") &&
  (orNullStr m.reply_to_id).isNone

/-! ## Concrete fixtures used by counterexamples and witnesses -/

/-- An events-table row used to exercise the duplicate path. -/
def c5DupRow : EventRow where
  event_id := "E"
  parent_event_id := none
  session_key := "k"
  session_id := some "S"
  event_type := "custom"
  event_subtype := none
  timestamp := some 1
  created_at := 0
  content_json := Json.null
  role := none
  tool_name := none
  model_provider := none
  model_id := none
  is_error := 0

/-- A store already holding the event id `E`. -/
def c5Db : ArchiveDB := { emptyDB with events := [c5DupRow] }

/-- An incoming event whose id collides with the stored `E`. -/
def c5DupEvent : ParsedEvent := { event_id := "E", event_type := "custom", session_id := some "S" }

/-- An incoming event whose parent `P` exists nowhere. -/
def c5FkEvent : ParsedEvent :=
  { event_id := "F", event_type := "custom", session_id := some "S",
    parent_event_id := some "P" }

/-- A toolCall block with id `T`. -/
def c3ToolBlock : ContentBlock := { btype := "toolCall", id := "T", name := some "exec" }

/-- An assistant message carrying two tool blocks with the same block id. -/
def c3DupMsg : MessageObj := { role := some "assistant", content := some [c3ToolBlock, c3ToolBlock] }

/-- An assistant message with one tool block, one thinking block and a
usage object (the shape of scenario S2 of the specification). -/
def c3GoodMsg : MessageObj where
  role := some "assistant"
  content := some [{ btype := "toolCall", id := "T1", name := some "exec" },
                   { btype := "thinking", thinking := some "hm" }]
  usage := some { input := some 100, output := some 50, totalTokens := some 150,
                  cost := some { total := some 3 } }

/-- A one-record session file with event time 1000. -/
def c1File : List Line := [Line.record (RawRecord.session "A" (some 3) (some "/x") (some 1000))]

/-- A stored event whose body carries its own `id` key. -/
def c6EvilRow : EventRow where
  event_id := "E"
  parent_event_id := none
  session_key := "k"
  session_id := some "S"
  event_type := "custom"
  event_subtype := none
  timestamp := some 5
  created_at := 0
  content_json := Json.obj [("id", Json.str "EVIL")]
  role := none
  tool_name := none
  model_provider := none
  model_id := none
  is_error := 0

/-- A store holding only `c6EvilRow`. -/
def c6Db : ArchiveDB := { emptyDB with events := [c6EvilRow] }

/-- A stored event with a clean body and a parent. -/
def c6GoodRow : EventRow where
  event_id := "E2"
  parent_event_id := some "P"
  session_key := "k"
  session_id := some "S"
  event_type := "tool_result"
  event_subtype := none
  timestamp := some 7
  created_at := 0
  content_json := Json.obj [("role", Json.str "toolResult")]
  role := some "toolResult"
  tool_name := none
  model_provider := none
  model_id := none
  is_error := 0

/-- A store holding only `c6GoodRow`. -/
def c6GoodDb : ArchiveDB := { emptyDB with events := [c6GoodRow] }

/-- A stored message whose `content_text` is NULL (for instance an image). -/
def c8NullRow : MessageRow where
  id := 1
  message_id := "M"
  internal_id := none
  session_key := "k"
  session_id := none
  direction := "inbound"
  sender_id := none
  sender_name := none
  recipient_id := none
  recipient_name := none
  channel := "c"
  device_id := none
  content_type := "image"
  content_text := none
  content_json := none
  content_hash := "h"
  reply_to_id := none
  thread_id := none
  timestamp := 1
  edited_at := none
  deleted_at := none
  created_at := 1

/-- A store holding only `c8NullRow`. -/
def c8Db : ArchiveDB := { emptyDB with messages := [c8NullRow] }

/-- A stored message with text content `hello`. -/
def c8TextRow : MessageRow := { c8NullRow with content_type := "text", content_text := some "hello" }

/-- A store holding only `c8TextRow`. -/
def c8TextDb : ArchiveDB := { emptyDB with messages := [c8TextRow] }

/-- A soft-deleted stored message. -/
def c9DelRow : MessageRow := { c8TextRow with deleted_at := some 5 }

/-- A store holding only the soft-deleted `c9DelRow`. -/
def c9Db : ArchiveDB := { emptyDB with messages := [c9DelRow] }

/-- First of two near-duplicate messages with no sender id. -/
def c2M1 : MessageData :=
  { message_id := "A", session_key := "s", direction := "inbound", channel := "c",
    sender_id := none, content_text := some "x", timestamp := 0 }

/-- Second near-duplicate: same (null) sender, same text, 500 ms later. -/
def c2M2 : MessageData := { c2M1 with message_id := "B", timestamp := 500 }

/-- First of two near-duplicates with a real sender id (witness input). -/
def c2W1 : MessageData := { c2M1 with sender_id := some "a" }

/-- Second witness near-duplicate. -/
def c2W2 : MessageData := { c2M2 with sender_id := some "a" }

/-- A parsed WhatsApp line from Alice. -/
def c10P1 : WAParsedLine :=
  { date := "12/31/23", time := "10:30 PM", sender := "Alice B", text := "Hi" }

/-- A second parsed line, same sender and minute, different text. -/
def c10P2 : WAParsedLine := { c10P1 with text := "See you" }

/-! # Helper lemmas -/

theorem insertSorted_perm (le : α → α → Bool) (x : α) (l : List α) :
    List.Perm (insertSorted le x l) (x :: l) := by
  induction l with
  | nil => simp [insertSorted]
  | cons y ys ih =>
    by_cases h : le x y = true
    · simp [insertSorted, h]
    · simp only [insertSorted, h]
      simp only [Bool.false_eq_true, if_false]
      exact ((ih.cons y).trans (List.Perm.swap x y ys))

theorem sortByBool_perm (le : α → α → Bool) (l : List α) :
    List.Perm (sortByBool le l) l := by
  induction l with
  | nil => simp [sortByBool]
  | cons x xs ih =>
    exact (insertSorted_perm le x (sortByBool le xs)).trans (ih.cons x)

theorem length_sortByBool (le : α → α → Bool) (l : List α) :
    (sortByBool le l).length = l.length :=
  (sortByBool_perm le l).length_eq

theorem mem_sortByBool (le : α → α → Bool) (l : List α) (a : α) :
    a ∈ sortByBool le l ↔ a ∈ l :=
  (sortByBool_perm le l).mem_iff

theorem hasEventId_iff (rows : List EventRow) (i : String) :
    hasEventId rows i = true ↔ ∃ r ∈ rows, r.event_id = i := by
  simp [hasEventId, List.any_eq_true, beq_iff_eq]

theorem str_append_cancel_left (s x y : String) (h : s ++ x = s ++ y) : x = y := by
  have hd : (s ++ x).data = (s ++ y).data := congrArg String.data h
  simp only [String.data_append] at hd
  have := List.append_cancel_left hd
  exact congrArg String.mk this

/-- Distinctness of the synthetic suffixes (used to separate child rows). -/
theorem tool_id_ne_thinking (p b : String) : p ++ "_tool_" ++ b ≠ p ++ "_thinking" := by
  intro h
  rw [String.append_assoc] at h
  have h2 := str_append_cancel_left p ("_tool_" ++ b) "_thinking" h
  have hd : ("_tool_" ++ b).data = ("_thinking" : String).data := congrArg String.data h2
  rw [String.data_append] at hd
  simp at hd

theorem tool_id_ne_usage (p b : String) : p ++ "_tool_" ++ b ≠ p ++ "_usage" := by
  intro h
  rw [String.append_assoc] at h
  have h2 := str_append_cancel_left p ("_tool_" ++ b) "_usage" h
  have hd : ("_tool_" ++ b).data = ("_usage" : String).data := congrArg String.data h2
  rw [String.data_append] at hd
  simp at hd

theorem thinking_ne_usage (p : String) : p ++ "_thinking" ≠ p ++ "_usage" := by
  intro h
  have h2 := str_append_cancel_left p "_thinking" "_usage" h
  simp at h2

theorem tool_id_inj (p b c : String) (h : p ++ "_tool_" ++ b = p ++ "_tool_" ++ c) :
    b = c :=
  str_append_cancel_left (p ++ "_tool_") b c (by
    rw [String.append_assoc, String.append_assoc] at h; rw [String.append_assoc]
    rw [String.append_assoc]
    exact h)

theorem self_ne_append_suffix (p s : String) (hs : s.length ≠ 0) : p ≠ p ++ s := by
  intro h
  have := congrArg String.length h
  rw [String.length_append] at this
  omega

theorem parseMessageEvent_children_ids (id : String) (ts : Option Int)
    (l : List ContentBlock) :
    List.map (fun e => e.event_id)
      (l.flatMap fun b =>
        (if b.btype = "toolCall" ∨ b.btype = "toolUse" then [toolCallEvent id ts b]
         else []) ++
        if b.btype = "thinking" then [thinkingBlockEvent id ts b] else []) =
    l.flatMap fun b =>
      (if b.btype = "toolCall" ∨ b.btype = "toolUse" then [id ++ "_tool_" ++ b.id]
       else []) ++
      if b.btype = "thinking" then [id ++ "_thinking"] else [] := by
  induction l with
  | nil => simp
  | cons b bs ih =>
    simp only [List.flatMap_cons, List.map_append, ih]
    congr 1
    by_cases h1 : b.btype = "toolCall" ∨ b.btype = "toolUse" <;>
      by_cases h2 : b.btype = "thinking" <;>
        simp [h1, h2, toolCallEvent, thinkingBlockEvent]

/-- C4. Synthetic event identifiers are deterministic and follow the
documented scheme: the ids of the events minted from a `message` record
are exactly `mintedEventIds` of the record id and embedded message —
`{parent_id}_tool_{tool_block_id}` per tool block, `{parent_id}_thinking`
for a thinking block, `{parent_id}_usage` for the usage event — a
formula that depends on nothing but the source record (in particular not
on the record parent, the timestamp, or any ambient state), so
re-parsing the same record always yields the same ids. -/
theorem parseMessageEvent_ids_deterministic (id : String) (parentId : Option String)
    (ts : Option Int) (msg : MessageObj) :
    (parseMessageEvent id parentId ts msg).map (fun e => e.event_id) =
      mintedEventIds id msg := by
  unfold parseMessageEvent mintedEventIds
  simp only [List.map_cons, List.map_append]
  by_cases hra : (msg.role == some "assistant") = true <;>
    rcases hu : msg.usage with _ | u <;>
      rcases hc : msg.content with _ | bs <;>
        simp [hra, hu, hc, usageStatsEvent] <;>
        exact parseMessageEvent_children_ids id ts bs

theorem parseEvent_timestamp (r : RawRecord) (e : ParsedEvent)
    (he : e ∈ parseEvent r) : e.timestamp = rawTimestamp r := by
  cases r with
  | session id version cwd ts =>
    simp only [parseEvent, List.mem_singleton] at he
    subst he; rfl
  | modelChange id p ts provider modelId =>
    simp only [parseEvent, List.mem_singleton] at he
    subst he; rfl
  | thinkingLevel id p ts level =>
    simp only [parseEvent, List.mem_singleton] at he
    subst he; rfl
  | custom id p ts customType data =>
    simp only [parseEvent, List.mem_singleton] at he
    subst he; rfl
  | message id p ts msg =>
    cases msg with
    | none => simp [parseEvent] at he
    | some m =>
      have hpe : parseEvent (RawRecord.message id p ts (some m)) =
          parseMessageEvent id p ts m := rfl
      rw [hpe] at he
      simp only [parseMessageEvent, List.mem_cons, List.mem_append] at he
      rcases he with he | he | he
      · subst he; rfl
      · by_cases hg : (m.role == some "assistant" && m.content.isSome) = true
        · rw [if_pos hg, List.mem_flatMap] at he
          rcases he with ⟨b, _, hb⟩
          rw [List.mem_append] at hb
          rcases hb with hb | hb
          · by_cases ht : (b.btype == "toolCall" || b.btype == "toolUse") = true
            · rw [if_pos ht, List.mem_singleton] at hb
              subst hb; rfl
            · rw [if_neg ht] at hb; simp at hb
          · by_cases ht : (b.btype == "thinking") = true
            · rw [if_pos ht, List.mem_singleton] at hb
              subst hb; rfl
            · rw [if_neg ht] at hb; simp at hb
        · rw [if_neg hg] at he; simp at he
      · by_cases hg : (m.role == some "assistant") = true
        · rw [if_pos hg] at he
          cases hm : m.usage with
          | none => rw [hm] at he; simp at he
          | some u =>
            rw [hm, List.mem_singleton] at he
            subst he; rfl
        · rw [if_neg hg] at he; simp at he
  | unknown ts => simp [parseEvent] at he

/-- C7 (counterexample). The claim that the emitted sequence contains
only events with timestamps strictly greater than the watermark fails:
a JSON-valid record of a recognized type whose timestamp is missing or
unparseable has a NaN timestamp, `NaN <= watermark` is false, so the
record passes the filter and is emitted with no timestamp greater than
the watermark. -/
theorem parseEvents_watermark_counterexample :
    parseEventsFile (some [Line.record (RawRecord.custom "x" none none none none)])
        (some 5) = .ok [parseCustomEvent "x" none none none none] ∧
    (parseCustomEvent "x" none none none none).timestamp = none ∧
    ¬ ∃ t : Int, (parseCustomEvent "x" none none none none).timestamp = some t ∧ 5 < t := by
  refine ⟨rfl, rfl, ?_⟩
  rintro ⟨t, ht, -⟩
  simp [parseCustomEvent] at ht

/-- C7 (amended). Event-log parser resilience and watermark filtering:
every emitted event that carries a parseable timestamp has it strictly
greater than the watermark (a record with a NaN timestamp passes the
filter and is emitted without one); blank lines, unparseable lines and
records of unrecognized type are skipped without aborting the stream;
and a missing input file is a hard error. -/
theorem parseEvents_resilience_watermark :
    (∀ (lines : List Line) (since : Int) (e : ParsedEvent),
        e ∈ parseEvents lines (some since) → ∀ t, e.timestamp = some t → since < t) ∧
    (∀ (lines : List Line) (since : Option Int),
        parseEvents (Line.blank :: lines) since = parseEvents lines since) ∧
    (∀ (lines : List Line) (since : Option Int),
        parseEvents (Line.malformed :: lines) since = parseEvents lines since) ∧
    (∀ (lines : List Line) (since ts : Option Int),
        parseEvents (Line.record (RawRecord.unknown ts) :: lines) since =
          parseEvents lines since) ∧
    (∀ since, parseEventsFile none since = .error ()) := by
  refine ⟨?_, ?_, ?_, ?_, fun _ => rfl⟩
  · intro lines since e he t hts
    rw [parseEvents, List.mem_flatMap] at he
    rcases he with ⟨line, -, hl⟩
    cases line with
    | blank => simp [parseLineStep] at hl
    | malformed => simp [parseLineStep] at hl
    | record r =>
      by_cases hw : jsLeOpt (rawTimestamp r) (some since) = true
      · simp [parseLineStep, hw] at hl
      · simp only [parseLineStep, hw, Bool.false_eq_true, if_false] at hl
        have hts2 := parseEvent_timestamp r e hl
        rw [hts] at hts2
        rw [← hts2] at hw
        simp only [jsLeOpt, decide_eq_true_eq] at hw
        omega
  · intro lines since; rfl
  · intro lines since; rfl
  · intro lines since ts
    show parseLineStep since (Line.record (RawRecord.unknown ts)) ++ parseEvents lines since =
      parseEvents lines since
    simp [parseLineStep, parseEvent]

/-- Witness for the amended C7 theorem at a concrete one-line file. -/
theorem parseEvents_resilience_watermark_witness :
    (parseCustomEvent "y" none (some 10) none none) ∈
      parseEvents [Line.record (RawRecord.custom "y" none (some 10) none none)] (some 5) ∧
    (5 : Int) < 10 :=
  ⟨List.mem_singleton.mpr rfl,
   parseEvents_resilience_watermark.1
     [Line.record (RawRecord.custom "y" none (some 10) none none)] 5
     (parseCustomEvent "y" none (some 10) none none)
     (List.mem_singleton.mpr rfl) 10 rfl⟩

theorem insertEventBatchGo_sum (key : String) (skip fk : Bool) (now : Int) :
    ∀ (es : List ParsedEvent) (db : ArchiveDB),
      (insertEventBatchGo key skip fk now db es).2.inserted +
      (insertEventBatchGo key skip fk now db es).2.skipped +
      (insertEventBatchGo key skip fk now db es).2.errors = es.length := by
  intro es
  induction es with
  | nil => intro db; rfl
  | cons e rest ih =>
    intro db
    rcases h1 : insertEvent db e key skip fk now with ⟨db1, out⟩
    have hs := ih db1
    simp only [insertEventBatchGo, h1]
    rcases h2 : insertEventBatchGo key skip fk now db1 rest with ⟨db2, r⟩
    rw [h2] at hs
    cases out <;> simp at hs ⊢ <;> omega

/-- C5. Batch failure semantics of `insertEventBatch`: (1) the returned
counters always satisfy `inserted + skipped + errors = events supplied`;
(2) with the skip-if-exists behaviour of the batch (its default), a
per-row uniqueness conflict is reported as a skip and never surfaces as
an error, leaving the store unchanged; (3) a foreign-key violation (a
normalized parent id that exists nowhere, with enforcement on) makes
that row error, leaving the store unchanged by it; (4) an erroring row
is dropped while the rest of the batch continues: the loop result on
`e :: rest` is exactly the result on `rest` with `errors` one higher. -/
theorem insertEventBatch_failure_semantics :
    (∀ (db : ArchiveDB) (events : List ParsedEvent) (key : String)
        (opts : EventBatchOptions) (now : Int),
        (insertEventBatch db events key opts now).2.inserted +
        (insertEventBatch db events key opts now).2.skipped +
        (insertEventBatch db events key opts now).2.errors = events.length) ∧
    (∀ (db : ArchiveDB) (e : ParsedEvent) (key : String) (fk : Bool) (now : Int),
        hasEventId db.events e.event_id = true →
        insertEvent db e key true fk now = (db, .skipped)) ∧
    (∀ (db : ArchiveDB) (e : ParsedEvent) (key : String) (skip : Bool) (now : Int)
        (p : String),
        hasEventId db.events e.event_id = false →
        strTruthy e.session_id = true →
        e.parent_event_id = some p → p ≠ "" → p ≠ e.event_id →
        hasEventId db.events p = false →
        insertEvent db e key skip true now = (db, .errored)) ∧
    (∀ (db : ArchiveDB) (e : ParsedEvent) (rest : List ParsedEvent) (key : String)
        (skip fk : Bool) (now : Int),
        insertEvent db e key skip fk now = (db, .errored) →
        (insertEventBatchGo key skip fk now db (e :: rest)).1 =
          (insertEventBatchGo key skip fk now db rest).1 ∧
        (insertEventBatchGo key skip fk now db (e :: rest)).2 =
          { (insertEventBatchGo key skip fk now db rest).2 with
            errors := (insertEventBatchGo key skip fk now db rest).2.errors + 1 }) := by
  refine ⟨?_, ?_, ?_, ?_⟩
  · intro db events key opts now
    unfold insertEventBatch
    rw [insertEventBatchGo_sum, List.length_map]
  · intro db e key fk now h
    unfold insertEvent
    by_cases hc : (!strTruthy e.session_id && e.event_type == "session") = true <;>
      simp [hc, h]
  · intro db e key skip now p hdup hsess hpar hp1 hp2 hp3
    have hc : (!strTruthy e.session_id && e.event_type == "session") = false := by
      simp [hsess]
    have hnn : (orNullStr e.session_id).isNone = false := by
      cases hse : e.session_id with
      | none => rw [hse] at hsess; simp [strTruthy] at hsess
      | some s => rw [hse] at hsess; simp [orNullStr, hsess]
    have hpn : orNullStr e.parent_event_id = some p := by
      rw [hpar]; simp [orNullStr, strTruthy, hp1]
    have hbeq : (p == e.event_id) = false := by simp [hp2]
    unfold insertEvent
    simp [hc, hdup, hnn, hpn, hbeq, hp3]
  · intro db e rest key skip fk now h
    constructor <;> simp [insertEventBatchGo, h]

/-- Witness for C5 at concrete inputs: a colliding event id is skipped
with the store untouched, and an orphan parent errors with the store
untouched; the counters of a concrete mixed batch sum to its length. -/
theorem insertEventBatch_failure_semantics_witness :
    hasEventId c5Db.events c5DupEvent.event_id = true ∧
    insertEvent c5Db c5DupEvent "k" true true 0 = (c5Db, .skipped) ∧
    insertEvent emptyDB c5FkEvent "k" true true 0 = (emptyDB, .errored) ∧
    (insertEventBatch c5Db [c5DupEvent, c5FkEvent] "k" {} 0).2.inserted +
      (insertEventBatch c5Db [c5DupEvent, c5FkEvent] "k" {} 0).2.skipped +
      (insertEventBatch c5Db [c5DupEvent, c5FkEvent] "k" {} 0).2.errors = 2 :=
  ⟨rfl,
   insertEventBatch_failure_semantics.2.1 c5Db c5DupEvent "k" true 0 rfl,
   insertEventBatch_failure_semantics.2.2.1 emptyDB c5FkEvent "k" true 0 "P" rfl rfl rfl
     (by decide) (by decide) rfl,
   insertEventBatch_failure_semantics.1 c5Db [c5DupEvent, c5FkEvent] "k" {} 0⟩

theorem insertThinkingBlock_events (db : ArchiveDB) (a b : String) (c : Option String)
    (n : Int) : (insertThinkingBlock db a b c n).events = db.events := by
  unfold insertThinkingBlock; split <;> rfl

theorem insertUsageStats_events (db : ArchiveDB) (a : String) (u : UsageData)
    (pr mo : Option String) (ts : Option Int) :
    (insertUsageStats db a u pr mo ts).events = db.events := by
  unfold insertUsageStats; split <;> rfl

theorem insertEvent_clean (db : ArchiveDB) (e : ParsedEvent) (key : String)
    (skip fk : Bool) (now : Int)
    (hdup : hasEventId db.events e.event_id = false)
    (hsess : strTruthy e.session_id = true)
    (hpar : (match orNullStr e.parent_event_id with
             | some p => p == e.event_id || hasEventId db.events p
             | none => true) = true) :
    (insertEvent db e key skip fk now).2 = .inserted (db.events.length + 1) ∧
    (insertEvent db e key skip fk now).1.events = db.events ++ [mkEventRow e key now] := by
  have hc : (!strTruthy e.session_id && e.event_type == "session") = false := by
    simp [hsess]
  have hnn : (orNullStr e.session_id).isNone = false := by
    cases hse : e.session_id with
    | none => rw [hse] at hsess; simp [strTruthy] at hsess
    | some s => rw [hse] at hsess; simp [orNullStr, hsess]
  have hfk : (fk && (match orNullStr e.parent_event_id with
      | some p => !(p == e.event_id || hasEventId db.events p)
      | none => false)) = false := by
    rcases hp : orNullStr e.parent_event_id with _ | p
    · simp [hp]
    · have hpar2 : (p == e.event_id || hasEventId db.events p) = true := by
        rw [hp] at hpar; exact hpar
      simp [hp, hpar2]
  unfold insertEvent
  simp only [hc, Bool.false_eq_true, if_false, hdup, Bool.and_false, Bool.false_and,
    hnn, hfk]
  refine ⟨by trivial, ?_⟩
  by_cases h1 : (e.event_type == "thinking_block" && strTruthy e.thinking_content) = true <;>
    by_cases h2 : (e.event_type == "usage_stats") = true <;>
      rcases hu : e.usage with _ | u <;>
        simp [h1, h2, hu, insertThinkingBlock_events, insertUsageStats_events]

theorem insertEventBatchGo_clean (key : String) (skip fk : Bool) (now : Int) :
    ∀ (es : List ParsedEvent) (db : ArchiveDB) (ids : List String),
      (∀ s, ids.contains s = true ↔ hasEventId db.events s = true) →
      batchInsertsCleanly ids es = true →
      (insertEventBatchGo key skip fk now db es).1.events =
        db.events ++ es.map (fun e => mkEventRow e key now) ∧
      (insertEventBatchGo key skip fk now db es).2 =
        { inserted := es.length, skipped := 0, errors := 0 } := by
  intro es
  induction es with
  | nil => intro db ids hids hcl; exact ⟨by simp [insertEventBatchGo], rfl⟩
  | cons e rest ih =>
    intro db ids hids hcl
    simp only [batchInsertsCleanly, Bool.and_eq_true] at hcl
    obtain ⟨⟨⟨hfresh, hsess⟩, hpar⟩, hrest⟩ := hcl
    have hdup : hasEventId db.events e.event_id = false := by
      cases h : hasEventId db.events e.event_id with
      | false => rfl
      | true =>
        have := (hids e.event_id).mpr h
        rw [this] at hfresh
        simp at hfresh
    have hpar2 : (match orNullStr e.parent_event_id with
        | some p => p == e.event_id || hasEventId db.events p
        | none => true) = true := by
      rcases hp : orNullStr e.parent_event_id with _ | p
      · rfl
      · rw [hp] at hpar
        rcases Bool.or_eq_true_iff.mp hpar with h | h
        · simp [h]
        · simp [(hids p).mp h]
    obtain ⟨hout, hev⟩ := insertEvent_clean db e key skip fk now hdup hsess hpar2
    rcases h1 : insertEvent db e key skip fk now with ⟨db1, out⟩
    rw [h1] at hout hev
    simp only at hout hev
    subst hout
    have hids1 : ∀ s, (e.event_id :: ids).contains s = true ↔
        hasEventId db1.events s = true := by
      intro s
      rw [hev]
      show (s == e.event_id || ids.contains s) = true ↔ _
      simp only [hasEventId, List.any_append, Bool.or_eq_true, List.any_cons,
        List.any_nil, beq_iff_eq]
      constructor
      · rintro (h | h)
        · right; left
          simp [mkEventRow, h]
        · left
          exact (hids s).mp h
      · rintro (h | h | h)
        · right
          exact (hids s).mpr h
        · left
          simp only [mkEventRow] at h
          exact h.symm
        · exact absurd h (by simp)
    obtain ⟨ihev, ihres⟩ := ih db1 (e.event_id :: ids) hids1 hrest
    simp only [insertEventBatchGo, h1]
    rcases h2 : insertEventBatchGo key skip fk now db1 rest with ⟨db2, r⟩
    rw [h2] at ihev ihres
    simp only at ihev ihres
    constructor
    · simp only [ihev, hev, List.map_cons, List.append_assoc, List.cons_append,
        List.nil_append]
    · simp [ihres]

theorem beq_or_contains_false {x e0 : String} (ids : List String)
    (hne : e0 ≠ x) (hfr : ids.contains x = false) :
    (x == e0 || ids.contains x) = false := by
  have hb : (x == e0) = false := by
    simp only [beq_eq_false_iff_ne, ne_eq]
    exact fun hc => hne hc.symm
  rw [hb, hfr]; rfl

theorem beq_or_contains_true {p e0 : String} (ids : List String)
    (h : ids.contains p = true) : (p == e0 || ids.contains p) = true := by
  rw [h, Bool.or_true]

theorem batchInsertsCleanly_tail (pid : String) :
    ∀ (rest : List ParsedEvent) (ids : List String),
      ids.contains pid = true →
      (∀ e ∈ rest, strTruthy e.session_id = true) →
      (∀ e ∈ rest, orNullStr e.parent_event_id = some pid) →
      (∀ e ∈ rest, ids.contains e.event_id = false) →
      List.Pairwise (fun a b => a.event_id ≠ b.event_id) rest →
      batchInsertsCleanly ids rest = true := by
  intro rest
  induction rest with
  | nil => intro ids _ _ _ _ _; rfl
  | cons e tail ih =>
    intro ids hpid hsess hpar hfresh hpw
    have hpwe := List.pairwise_cons.mp hpw
    simp only [batchInsertsCleanly, Bool.and_eq_true]
    refine ⟨⟨⟨?_, hsess e (by simp)⟩, ?_⟩, ?_⟩
    · rw [hfresh e (by simp)]; rfl
    · rw [hpar e (by simp)]
      exact beq_or_contains_true ids hpid
    · apply ih (e.event_id :: ids)
      · show (pid == e.event_id || ids.contains pid) = true
        exact beq_or_contains_true ids hpid
      · intro x hx; exact hsess x (by simp [hx])
      · intro x hx; exact hpar x (by simp [hx])
      · intro x hx
        show (x.event_id == e.event_id || ids.contains x.event_id) = false
        exact beq_or_contains_false ids (hpwe.1 x hx) (hfresh x (by simp [hx]))
      · exact hpwe.2

theorem batchInsertsCleanly_head (e0 : ParsedEvent) (rest : List ParsedEvent)
    (ids : List String)
    (h0 : ids.contains e0.event_id = false)
    (h1 : strTruthy e0.session_id = true)
    (h2 : orNullStr e0.parent_event_id = none)
    (h3 : ∀ e ∈ rest, strTruthy e.session_id = true)
    (h4 : ∀ e ∈ rest, orNullStr e.parent_event_id = some e0.event_id)
    (h5 : ∀ e ∈ rest, ids.contains e.event_id = false)
    (h6 : List.Pairwise (fun a b => a.event_id ≠ b.event_id) (e0 :: rest)) :
    batchInsertsCleanly ids (e0 :: rest) = true := by
  have hpwe := List.pairwise_cons.mp h6
  simp only [batchInsertsCleanly, Bool.and_eq_true]
  refine ⟨⟨⟨by rw [h0]; rfl, h1⟩, by rw [h2]⟩, ?_⟩
  apply batchInsertsCleanly_tail e0.event_id rest (e0.event_id :: ids)
  · show (e0.event_id == e0.event_id || ids.contains e0.event_id) = true
    simp
  · exact h3
  · exact h4
  · intro x hx
    show (x.event_id == e0.event_id || ids.contains x.event_id) = false
    exact beq_or_contains_false ids (hpwe.1 x hx) (h5 x hx)
  · exact hpwe.2

theorem tool_not_thinking {b : ContentBlock}
    (h : (b.btype == "toolCall" || b.btype == "toolUse") = true) :
    (b.btype == "thinking") = false := by
  rcases Bool.or_eq_true_iff.mp h with h | h <;>
    · rw [beq_iff_eq.mp h]; rfl

theorem toolIdsOf_cons (b : ContentBlock) (bs : List ContentBlock) :
    toolIdsOf (b :: bs) =
      (if (b.btype == "toolCall" || b.btype == "toolUse") = true then [b.id] else []) ++
        toolIdsOf bs := by
  by_cases h : (b.btype == "toolCall" || b.btype == "toolUse") = true <;>
    simp [toolIdsOf, List.filter_cons, h]

theorem thinkCount_cons (b : ContentBlock) (bs : List ContentBlock) :
    thinkCount (b :: bs) =
      (if (b.btype == "thinking") = true then 1 else 0) + thinkCount bs := by
  by_cases h : (b.btype == "thinking") = true <;>
    simp [thinkCount, List.filter_cons, h] <;> omega

theorem childEventIds_cons (id : String) (b : ContentBlock) (bs : List ContentBlock) :
    childEventIds id (b :: bs) =
      ((if (b.btype == "toolCall" || b.btype == "toolUse") = true
        then [id ++ "_tool_" ++ b.id] else []) ++
       (if (b.btype == "thinking") = true then [id ++ "_thinking"] else [])) ++
      childEventIds id bs := by
  simp [childEventIds, List.flatMap_cons]

theorem childEventIds_length (id : String) :
    ∀ bs : List ContentBlock,
      (childEventIds id bs).length = (toolIdsOf bs).length + thinkCount bs := by
  intro bs
  induction bs with
  | nil => rfl
  | cons b bs ih =>
    rw [childEventIds_cons, toolIdsOf_cons, thinkCount_cons]
    by_cases h1 : (b.btype == "toolCall" || b.btype == "toolUse") = true <;>
      by_cases h2 : (b.btype == "thinking") = true <;>
        simp [h1, h2, ih] <;> omega

theorem childEventIds_mem (id : String) :
    ∀ (bs : List ContentBlock) (x : String), x ∈ childEventIds id bs →
      (∃ s ∈ toolIdsOf bs, x = id ++ "_tool_" ++ s) ∨
      (x = id ++ "_thinking" ∧ 1 ≤ thinkCount bs) := by
  intro bs
  induction bs with
  | nil => intro x hx; simp [childEventIds] at hx
  | cons b bs ih =>
    intro x hx
    rw [childEventIds_cons, List.append_assoc] at hx
    rcases List.mem_append.mp hx with hx | hx
    · by_cases h1 : (b.btype == "toolCall" || b.btype == "toolUse") = true
      · rw [if_pos h1, List.mem_singleton] at hx
        left
        exact ⟨b.id, by rw [toolIdsOf_cons, if_pos h1]; simp, hx⟩
      · rw [if_neg h1] at hx; simp at hx
    · rcases List.mem_append.mp hx with hx | hx
      · by_cases h2 : (b.btype == "thinking") = true
        · rw [if_pos h2, List.mem_singleton] at hx
          right
          refine ⟨hx, ?_⟩
          rw [thinkCount_cons, if_pos h2]
          omega
        · rw [if_neg h2] at hx; simp at hx
      · rcases ih x hx with ⟨s, hs, hxe⟩ | ⟨hxe, hj⟩
        · left
          refine ⟨s, ?_, hxe⟩
          rw [toolIdsOf_cons]
          exact List.mem_append.mpr (Or.inr hs)
        · right
          refine ⟨hxe, ?_⟩
          rw [thinkCount_cons]
          omega

theorem childEventIds_pairwise (id : String) :
    ∀ bs : List ContentBlock,
      List.Pairwise (fun a b => a ≠ b) (toolIdsOf bs) →
      thinkCount bs ≤ 1 →
      List.Pairwise (fun a b => a ≠ b) (childEventIds id bs) := by
  intro bs
  induction bs with
  | nil => intro _ _; simp [childEventIds]
  | cons b bs ih =>
    intro hpw hth
    rw [toolIdsOf_cons] at hpw
    rw [thinkCount_cons] at hth
    rw [childEventIds_cons]
    by_cases h1 : (b.btype == "toolCall" || b.btype == "toolUse") = true
    · have h2 := tool_not_thinking h1
      rw [if_pos h1] at hpw
      rw [h2] at hth
      simp only [Bool.false_eq_true, if_false, Nat.zero_add] at hth
      rw [if_pos h1, h2]
      simp only [Bool.false_eq_true, if_false, List.append_nil, List.singleton_append]
      rw [List.pairwise_cons]
      have hpwc : (∀ s ∈ toolIdsOf bs, b.id ≠ s) ∧
          List.Pairwise (fun a b => a ≠ b) (toolIdsOf bs) := by
        simpa using hpw
      constructor
      · intro y hy
        rcases childEventIds_mem id bs y hy with ⟨s, hs, rfl⟩ | ⟨rfl, -⟩
        · intro hco
          exact hpwc.1 s hs (tool_id_inj id b.id s hco)
        · exact tool_id_ne_thinking id b.id
      · exact ih hpwc.2 hth
    · rw [if_neg h1] at hpw
      rw [List.nil_append] at hpw
      rw [if_neg h1]
      rw [List.nil_append]
      by_cases h2 : (b.btype == "thinking") = true
      · rw [if_pos h2] at hth
        have hz : thinkCount bs = 0 := by omega
        rw [if_pos h2]
        rw [List.singleton_append, List.pairwise_cons]
        constructor
        · intro y hy
          rcases childEventIds_mem id bs y hy with ⟨s, -, rfl⟩ | ⟨-, hj⟩
          · exact fun hco => tool_id_ne_thinking id s hco.symm
          · omega
        · exact ih hpw (by omega)
      · rw [if_neg h2] at hth
        simp only [Nat.zero_add] at hth
        rw [if_neg h2]
        rw [List.nil_append]
        exact ih hpw hth

theorem id_ne_tool_suffix (id s : String) : id ≠ id ++ "_tool_" ++ s := by
  rw [String.append_assoc]
  apply self_ne_append_suffix
  rw [String.length_append]
  have h6 : ("_tool_" : String).length = 6 := rfl
  omega

theorem id_ne_thinking_suffix (id : String) : id ≠ id ++ "_thinking" :=
  self_ne_append_suffix id "_thinking" (by decide)

theorem id_ne_usage_suffix (id : String) : id ≠ id ++ "_usage" :=
  self_ne_append_suffix id "_usage" (by decide)

theorem mintedEventIds_eq (id : String) (msg : MessageObj) (bs : List ContentBlock)
    (hrole : msg.role = some "assistant") (hcontent : msg.content = some bs) :
    mintedEventIds id msg =
      id :: (childEventIds id bs ++
        (if msg.usage.isSome then [id ++ "_usage"] else [])) := by
  simp only [mintedEventIds, hrole, hcontent, childEventIds, Option.isSome_some,
    Option.getD_some, Bool.and_true, Bool.and_self]
  rfl

theorem mintedEventIds_pairwise (id : String) (msg : MessageObj) (bs : List ContentBlock)
    (hrole : msg.role = some "assistant") (hcontent : msg.content = some bs)
    (htool : List.Pairwise (fun a b => a ≠ b) (toolIdsOf bs))
    (hth : thinkCount bs ≤ 1) :
    List.Pairwise (fun a b => a ≠ b) (mintedEventIds id msg) := by
  rw [mintedEventIds_eq id msg bs hrole hcontent, List.pairwise_cons]
  constructor
  · intro y hy
    rcases List.mem_append.mp hy with hy | hy
    · rcases childEventIds_mem id bs y hy with ⟨s, -, rfl⟩ | ⟨rfl, -⟩
      · exact id_ne_tool_suffix id s
      · exact id_ne_thinking_suffix id
    · rcases hu : msg.usage with - | u
      · rw [hu] at hy; simp at hy
      · rw [hu] at hy
        simp only [Option.isSome_some, if_true, List.mem_singleton] at hy
        subst hy
        exact id_ne_usage_suffix id
  · rw [List.pairwise_append]
    refine ⟨childEventIds_pairwise id bs htool hth, ?_, ?_⟩
    · rcases msg.usage with - | u <;> simp
    · intro a ha y hy
      rcases hu : msg.usage with - | u
      · rw [hu] at hy; simp at hy
      · rw [hu] at hy
        simp only [Option.isSome_some, if_true, List.mem_singleton] at hy
        subst hy
        rcases childEventIds_mem id bs a ha with ⟨s, -, rfl⟩ | ⟨rfl, -⟩
        · exact tool_id_ne_usage id s
        · exact thinking_ne_usage id

/-- The head of a parsed message fan-out is the main event literal. -/
theorem parseMessageEvent_cons (id : String) (p : Option String) (ts : Option Int)
    (msg : MessageObj) :
    parseMessageEvent id p ts msg =
      { event_id := id
        parent_event_id := orNullStr p
        session_id := none
        event_type := if msg.role == some "toolResult" then "tool_result" else "message"
        event_subtype := none
        timestamp := ts
        content_json := msgToJson msg
        role := msg.role
        tool_name := if msg.role == some "toolResult" then msg.toolName else none
        model_provider := orNullStr msg.provider
        model_id := orNullStr msg.model
        is_error := if msg.role == some "toolResult" then (if msg.isError then 1 else 0)
          else 0
        thinking_content := none
        thinking_signature := none
        usage := none } :: (parseMessageEvent id p ts msg).tail := rfl

theorem parseMessageEvent_tail_fields (id : String) (p : Option String) (ts : Option Int)
    (msg : MessageObj) :
    ∀ e ∈ (parseMessageEvent id p ts msg).tail,
      e.parent_event_id = some id ∧ e.session_id = none := by
  intro e he
  have htail : (parseMessageEvent id p ts msg).tail =
      (if msg.role == some "assistant" && msg.content.isSome then
        (msg.content.getD []).flatMap (fun b =>
          (if b.btype == "toolCall" || b.btype == "toolUse" then [toolCallEvent id ts b]
           else []) ++
          (if b.btype == "thinking" then [thinkingBlockEvent id ts b] else []))
      else []) ++
      (if msg.role == some "assistant" then
        match msg.usage with
        | some u => [usageStatsEvent id ts msg u]
        | none => []
      else []) := rfl
  rw [htail] at he
  rcases List.mem_append.mp he with he | he
  · by_cases hg : (msg.role == some "assistant" && msg.content.isSome) = true
    · rw [if_pos hg, List.mem_flatMap] at he
      rcases he with ⟨b, -, hb⟩
      rcases List.mem_append.mp hb with hb | hb
      · by_cases ht : (b.btype == "toolCall" || b.btype == "toolUse") = true
        · rw [if_pos ht, List.mem_singleton] at hb
          subst hb; exact ⟨rfl, rfl⟩
        · rw [if_neg ht] at hb; simp at hb
      · by_cases ht : (b.btype == "thinking") = true
        · rw [if_pos ht, List.mem_singleton] at hb
          subst hb; exact ⟨rfl, rfl⟩
        · rw [if_neg ht] at hb; simp at hb
    · rw [if_neg hg] at he; simp at he
  · by_cases hg : (msg.role == some "assistant") = true
    · rw [if_pos hg] at he
      rcases hu : msg.usage with - | u
      · rw [hu] at he; simp at he
      · rw [hu, List.mem_singleton] at he
        subst he; exact ⟨rfl, rfl⟩
    · rw [if_neg hg] at he; simp at he

theorem parseMessageEvent_session_none (id : String) (p : Option String)
    (ts : Option Int) (msg : MessageObj) :
    ∀ e ∈ parseMessageEvent id p ts msg, e.session_id = none := by
  intro e he
  rw [parseMessageEvent_cons] at he
  rcases List.mem_cons.mp he with he | he
  · subst he; rfl
  · exact (parseMessageEvent_tail_fields id p ts msg e he).2

/-- C3 (amended). Fan-out of a `message` record into the store: for an
assistant message whose content carries tool blocks with pairwise
distinct block ids (duplicate block ids collapse under the UNIQUE
event-id check, see the counterexample) and at most one thinking block,
ingesting the parse of the record into an empty store (with a session id
supplied, as the scanner does) produces exactly
`1 + K + J + U` event rows — `K` tool blocks, `J` thinking blocks,
`U = 1` exactly when a usage object is present — every row other than
the parent carrying `parent_event_id` equal to the parent id, the parent
row itself having no parent and type `message`; and a record whose
embedded role is `toolResult` parses to a single event of type
`tool_result` instead of `message`. -/
theorem messageFanout_rows :
    (∀ (id sid : String) (ts : Option Int) (msg : MessageObj) (bs : List ContentBlock)
        (now : Int),
        id ≠ "" → sid ≠ "" →
        msg.role = some "assistant" → msg.content = some bs →
        List.Pairwise (fun a b => a ≠ b) (toolIdsOf bs) →
        thinkCount bs ≤ 1 →
        ((insertEventBatch emptyDB (parseMessageEvent id none ts msg) "agent:main:main"
            { skipIfExists := true, sessionId := some sid, disableForeignKeys := false }
            now).1.events.length =
          1 + (toolIdsOf bs).length + thinkCount bs +
            (if msg.usage.isSome then 1 else 0)) ∧
        ((insertEventBatch emptyDB (parseMessageEvent id none ts msg) "agent:main:main"
            { skipIfExists := true, sessionId := some sid, disableForeignKeys := false }
            now).2 =
          { inserted := 1 + (toolIdsOf bs).length + thinkCount bs +
              (if msg.usage.isSome then 1 else 0), skipped := 0, errors := 0 }) ∧
        (∀ r ∈ (insertEventBatch emptyDB (parseMessageEvent id none ts msg)
            "agent:main:main"
            { skipIfExists := true, sessionId := some sid, disableForeignKeys := false }
            now).1.events,
          (r.event_id ≠ id → r.parent_event_id = some id) ∧
          (r.event_id = id → r.parent_event_id = none ∧ r.event_type = "message"))) ∧
    (∀ (id : String) (p : Option String) (ts : Option Int) (msg : MessageObj),
        msg.role = some "toolResult" →
        (parseMessageEvent id p ts msg).map (fun e => e.event_type) = ["tool_result"]) := by
  constructor
  · intro id sid ts msg bs now hid hsid hrole hcontent htool hth
    have hsid' : strTruthy (some sid) = true := by simp [strTruthy, hsid]
    have hmapfill : (parseMessageEvent id none ts msg).map
        (fun e => if strTruthy e.session_id then e else { e with session_id := some sid }) =
        (parseMessageEvent id none ts msg).map (fun e => { e with session_id := some sid }) :=
      List.map_congr_left (fun e he => by
        rw [parseMessageEvent_session_none id none ts msg e he]
        rfl)
    have hbatch : insertEventBatch emptyDB (parseMessageEvent id none ts msg)
        "agent:main:main"
        { skipIfExists := true, sessionId := some sid, disableForeignKeys := false } now =
        insertEventBatchGo "agent:main:main" true true now emptyDB
          ((parseMessageEvent id none ts msg).map
            (fun e => { e with session_id := some sid })) := by
      unfold insertEventBatch
      rw [← hmapfill]
      simp [hsid']
    -- the ids of the filled batch are the minted ids
    have hidsmap : ((parseMessageEvent id none ts msg).map
        (fun e => { e with session_id := some sid })).map (fun e => e.event_id) =
        mintedEventIds id msg := by
      rw [List.map_map]
      exact parseMessageEvent_ids_deterministic id none ts msg
    have hpwmap : List.Pairwise (fun a b => a.event_id ≠ b.event_id)
        ((parseMessageEvent id none ts msg).map
          (fun e => { e with session_id := some sid })) := by
      apply List.pairwise_map.mp
      rw [hidsmap]
      exact mintedEventIds_pairwise id msg bs hrole hcontent htool hth
    -- split off the head
    have hcons : (parseMessageEvent id none ts msg).map
        (fun e => { e with session_id := some sid }) =
        ({ (({ event_id := id
               parent_event_id := orNullStr none
               session_id := none
               event_type := if msg.role == some "toolResult" then "tool_result"
                 else "message"
               event_subtype := none
               timestamp := ts
               content_json := msgToJson msg
               role := msg.role
               tool_name := if msg.role == some "toolResult" then msg.toolName else none
               model_provider := orNullStr msg.provider
               model_id := orNullStr msg.model
               is_error := if msg.role == some "toolResult" then
                 (if msg.isError then 1 else 0) else 0
               thinking_content := none
               thinking_signature := none
               usage := none } : ParsedEvent)) with session_id := some sid }) ::
        ((parseMessageEvent id none ts msg).tail.map
          (fun e => { e with session_id := some sid })) := by
      conv_lhs => rw [parseMessageEvent_cons id none ts msg]
      rw [List.map_cons]
    have hclean : batchInsertsCleanly []
        ((parseMessageEvent id none ts msg).map
          (fun e => { e with session_id := some sid })) = true := by
      rw [hcons]
      apply batchInsertsCleanly_head
      · rfl
      · exact hsid'
      · simp [orNullStr, strTruthy]
      · intro e he
        rcases List.mem_map.mp he with ⟨e0, -, rfl⟩
        exact hsid'
      · intro e he
        rcases List.mem_map.mp he with ⟨e0, he0, rfl⟩
        have hp := (parseMessageEvent_tail_fields id none ts msg e0 he0).1
        show orNullStr e0.parent_event_id = some id
        rw [hp]
        simp [orNullStr, strTruthy, hid]
      · intro e he
        rfl
      · rw [← hcons]
        exact hpwmap
    obtain ⟨hev, hres⟩ := insertEventBatchGo_clean "agent:main:main" true true now
      ((parseMessageEvent id none ts msg).map (fun e => { e with session_id := some sid }))
      emptyDB [] (by intro s; simp [hasEventId, emptyDB]) hclean
    have hlen : (parseMessageEvent id none ts msg).length =
        1 + (toolIdsOf bs).length + thinkCount bs +
          (if msg.usage.isSome then 1 else 0) := by
      have h1 : (parseMessageEvent id none ts msg).length =
          (mintedEventIds id msg).length := by
        rw [← parseMessageEvent_ids_deterministic id none ts msg, List.length_map]
      rw [h1, mintedEventIds_eq id msg bs hrole hcontent]
      simp only [List.length_cons, List.length_append, childEventIds_length]
      rcases msg.usage with - | u <;> simp <;> omega
    refine ⟨?_, ?_, ?_⟩
    · rw [hbatch, hev]
      simp only [emptyDB, List.nil_append, List.length_map]
      exact hlen
    · rw [hbatch, hres]
      simp only [List.length_map, hlen]
    · intro r hr
      rw [hbatch, hev] at hr
      simp only [emptyDB, List.nil_append] at hr
      rcases List.mem_map.mp hr with ⟨e', he', rfl⟩
      rw [hcons] at he'
      rcases List.mem_cons.mp he' with he' | he'
      · subst he'
        constructor
        · intro hne
          exact absurd rfl hne
        · intro h0
          constructor
          · show orNullStr (orNullStr none) = none
            simp [orNullStr, strTruthy]
          · show (if msg.role == some "toolResult" then "tool_result" else "message") =
              "message"
            rw [hrole]
            rfl
      · rcases List.mem_map.mp he' with ⟨e0, he0, rfl⟩
        have hp := (parseMessageEvent_tail_fields id none ts msg e0 he0).1
        have hne : e0.event_id ≠ id := by
          have hpw2 : List.Pairwise (fun a b => a ≠ b) (mintedEventIds id msg) :=
            mintedEventIds_pairwise id msg bs hrole hcontent htool hth
          have htl : e0.event_id ∈ (mintedEventIds id msg).tail := by
            have h2 : (parseMessageEvent id none ts msg).tail.map (fun e => e.event_id) =
                (mintedEventIds id msg).tail := by
              rw [← parseMessageEvent_ids_deterministic id none ts msg]
              conv_rhs => rw [parseMessageEvent_cons id none ts msg, List.map_cons]
              rfl
            rw [← h2]
            exact List.mem_map.mpr ⟨e0, he0, rfl⟩
          rw [mintedEventIds_eq id msg bs hrole hcontent] at hpw2 htl
          simp only [List.tail_cons] at htl
          have h3 := (List.pairwise_cons.mp hpw2).1 e0.event_id htl
          exact fun hc => h3 hc.symm
        constructor
        · intro h0
          show orNullStr e0.parent_event_id = some id
          rw [hp]
          simp [orNullStr, strTruthy, hid]
        · intro hc
          exact absurd hc hne
  · intro id p ts msg hrole
    simp [parseMessageEvent, hrole]

/-- C3 (counterexample). The claim as stated fails when two tool blocks
carry the same block id: the parser emits K = 2 tool events with the
same minted id, the second collides with the UNIQUE event id, and the
store ends with 2 rows instead of the claimed 1 + K = 3. -/
theorem messageFanout_counterexample :
    ((c3DupMsg.content.getD []).filter
        (fun b => b.btype == "toolCall" || b.btype == "toolUse")).length = 2 ∧
    ((insertEventBatch emptyDB (parseMessageEvent "M" none (some 5) c3DupMsg)
        "agent:main:main"
        { skipIfExists := true, sessionId := some "S", disableForeignKeys := false }
        7).1.events.length = 2) ∧
    ((insertEventBatch emptyDB (parseMessageEvent "M" none (some 5) c3DupMsg)
        "agent:main:main"
        { skipIfExists := true, sessionId := some "S", disableForeignKeys := false }
        7).2 = { inserted := 2, skipped := 1, errors := 0 }) :=
  ⟨rfl, rfl, rfl⟩

/-- Witness for the amended C3 theorem on the S2-shaped message (one
tool block, one thinking block, one usage object): 4 rows. -/
theorem messageFanout_rows_witness :
    ("M" : String) ≠ "" ∧ c3GoodMsg.role = some "assistant" ∧
    ((insertEventBatch emptyDB (parseMessageEvent "M" none (some 5) c3GoodMsg)
        "agent:main:main"
        { skipIfExists := true, sessionId := some "S", disableForeignKeys := false }
        7).1.events.length = 1 + 1 + 1 + 1) :=
  ⟨by decide, rfl,
   (messageFanout_rows.1 "M" "S" (some 5) c3GoodMsg
     (c3GoodMsg.content.getD []) 7 (by decide) (by decide) rfl rfl
     (by decide) (by decide)).1⟩

/-- C8 (counterexample). `update_message` on an existing message is not
always the claimed edit-append + rewrite: when the live row's
`content_text` is NULL (e.g. a media message), inserting the Edit row
violates the NOT NULL constraint on `edits.previous_content` and the
call raises instead. -/
theorem updateMessage_null_content_counterexample :
    (∃ r ∈ c8Db.messages, r.message_id = "M") ∧
    updateMessage c8Db "M" "new" 5 = none :=
  ⟨⟨c8NullRow, by simp [c8Db, emptyDB], rfl⟩, rfl⟩

/-- C8 (amended). `update_message(message_id, new_content, edited_at)`
on a message whose current content is non-NULL appends exactly one Edit
row carrying the previous content and the edit timestamp and rewrites
the live row's `content_text` and `edited_at`, leaving every other row
and table unchanged; on an absent `message_id` it is a silent no-op
returning the store untouched. (On a NULL-content message it raises,
see the counterexample.) -/
theorem updateMessage_spec :
    (∀ (db : ArchiveDB) (mid c : String) (t : Int) (cur : MessageRow) (prev : String),
        db.messages.find? (fun r => r.message_id == mid) = some cur →
        cur.content_text = some prev →
        ∃ db2, updateMessage db mid c t = some db2 ∧
          db2.edits = db.edits ++
            [{ id := db.edits.length + 1, message_id := mid,
               previous_content := prev, edited_at := t }] ∧
          db2.messages.length = db.messages.length ∧
          (∀ r ∈ db2.messages,
            (r.message_id = mid → r.content_text = some c ∧ r.edited_at = some t) ∧
            (r.message_id ≠ mid → r ∈ db.messages)) ∧
          db2.events = db.events ∧ db2.thinking_blocks = db.thinking_blocks ∧
          db2.usage_stats = db.usage_stats ∧ db2.state = db.state) ∧
    (∀ (db : ArchiveDB) (mid c : String) (t : Int),
        (∀ r ∈ db.messages, r.message_id ≠ mid) →
        updateMessage db mid c t = some db) := by
  constructor
  · intro db mid c t cur prev hfind hct
    refine ⟨{ db with
        edits := db.edits ++ [{ id := db.edits.length + 1, message_id := mid,
                                previous_content := prev, edited_at := t }],
        messages := db.messages.map (fun r =>
          if r.message_id == mid then { r with content_text := some c, edited_at := some t }
          else r) }, ?_, rfl, List.length_map _ _, ?_, rfl, rfl, rfl, rfl⟩
    · rw [updateMessage]
      simp only [hfind, hct]
    intro r hr
    rcases List.mem_map.mp hr with ⟨r0, hr0, rfl⟩
    by_cases hb : (r0.message_id == mid) = true
    · rw [if_pos hb]
      constructor
      · intro _h
        exact ⟨rfl, rfl⟩
      · intro hne
        exact absurd (beq_iff_eq.mp hb) hne
    · rw [if_neg hb]
      constructor
      · intro he
        exact absurd (beq_iff_eq.mpr he) hb
      · intro _h
        exact hr0
  · intro db mid c t habs
    have hfind : db.messages.find? (fun r => r.message_id == mid) = none := by
      rw [List.find?_eq_none]
      intro r hr
      simp only [beq_iff_eq]
      exact habs r hr
    rw [updateMessage, hfind]

/-- Witness for the amended C8 theorem: the S6-style edit on a stored
`hello` message appends the Edit row, and updating an absent id is a
silent no-op. -/
theorem updateMessage_spec_witness :
    (∃ db2, updateMessage c8TextDb "M" "hi" 5 = some db2 ∧
      db2.edits = c8TextDb.edits ++
        [{ id := 1, message_id := "M",
           previous_content := "hello", edited_at := 5 }]) ∧
    updateMessage c8TextDb "X" "hi" 5 = some c8TextDb := by
  constructor
  · obtain ⟨db2, h1, h2, -⟩ :=
      updateMessage_spec.1 c8TextDb "M" "hi" 5 c8TextRow "hello" rfl rfl
    exact ⟨db2, h1, h2.trans (by rfl)⟩
  · exact updateMessage_spec.2 c8TextDb "X" "hi" 5 (by decide)

/-- C9 (counterexample): a stored message with non-null `deleted_at`
matches every other filter, yet `queryMessages` with
`include_deleted = true` and `limit = 0` returns nothing — pagination can
page the deleted row out, so the unconditional "includes such messages"
fails. -/
theorem softDelete_pagination_counterexample :
    c9DelRow ∈ c9Db.messages ∧ c9DelRow.deleted_at ≠ none ∧
    msgOtherFiltersOk { includeDeleted := true, limit := 0 }
      (fun _ _ => true) c9DelRow = true ∧
    queryMessages c9Db { includeDeleted := true, limit := 0 }
      (fun _ _ => true) = [] :=
  ⟨List.mem_singleton.mpr rfl, by decide, rfl, rfl⟩

/-- C9 (amended): `softDeleteMessage` sets `deleted_at` in place and
removes no row; `queryMessages` with `include_deleted = false` excludes
every row whose `deleted_at` is non-null; with `include_deleted = true`
the WHERE predicate degenerates to the remaining filters, and a stored
deleted row matching them is returned whenever pagination does not cut
it off (offset 0 and at most `limit` matching rows). -/
theorem queryMessages_soft_delete_visibility :
    (∀ (db : ArchiveDB) (mid : String) (ts : Int),
        (softDeleteMessage db mid ts).messages.length = db.messages.length ∧
        ∀ r ∈ (softDeleteMessage db mid ts).messages,
          (r.message_id = mid → r.deleted_at = some ts) ∧
          (r.message_id ≠ mid → r ∈ db.messages)) ∧
    (∀ (db : ArchiveDB) (f : MsgFilters)
        (matchFn : String → Option String → Bool),
        f.includeDeleted = false →
        ∀ r ∈ queryMessages db f matchFn, r.deleted_at = none) ∧
    (∀ (f : MsgFilters) (matchFn : String → Option String → Bool)
        (r : MessageRow),
        f.includeDeleted = true →
        msgRowKeep f matchFn r = msgOtherFiltersOk f matchFn r) ∧
    (∀ (db : ArchiveDB) (f : MsgFilters)
        (matchFn : String → Option String → Bool) (r : MessageRow),
        f.includeDeleted = true → r ∈ db.messages →
        msgOtherFiltersOk f matchFn r = true → f.offset = 0 →
        ((db.messages.filter (msgRowKeep f matchFn)).length : Int) ≤ f.limit →
        r ∈ queryMessages db f matchFn) := by
  refine ⟨?_, ?_, ?_, ?_⟩
  · intro db mid ts
    refine ⟨List.length_map _ _, ?_⟩
    intro r hr
    rcases List.mem_map.mp hr with ⟨r0, hr0, rfl⟩
    by_cases hb : (r0.message_id == mid) = true
    · simp only [if_pos hb]
      constructor
      · intro _h
        trivial
      · intro hne
        exact absurd (beq_iff_eq.mp hb) hne
    · simp only [if_neg hb]
      constructor
      · intro he
        exact absurd (beq_iff_eq.mpr he) hb
      · intro _h
        exact hr0
  · intro db f matchFn hinc r hr
    simp only [queryMessages, applyLimitOffset] at hr
    have h2 : r ∈ sortByBool (fun a b => b.timestamp ≤ a.timestamp)
        (db.messages.filter (msgRowKeep f matchFn)) := by
      split at hr
      · exact List.mem_of_mem_drop hr
      · exact List.mem_of_mem_drop (List.mem_of_mem_take hr)
    have h3 := (mem_sortByBool _ _ r).mp h2
    have hkeep := (List.mem_filter.mp h3).2
    simp only [msgRowKeep, hinc, Bool.false_or, Bool.and_eq_true,
      beq_iff_eq] at hkeep
    exact hkeep.2
  · intro f matchFn r hinc
    rw [msgRowKeep, hinc, Bool.true_or, Bool.and_true]
  · intro db f matchFn r hinc hmem hok hoff hlen
    have hkeep : msgRowKeep f matchFn r = true := by
      rw [msgRowKeep, hinc, Bool.true_or, Bool.and_true]
      exact hok
    have hsort : r ∈ sortByBool (fun a b => b.timestamp ≤ a.timestamp)
        (db.messages.filter (msgRowKeep f matchFn)) :=
      (mem_sortByBool _ _ r).mpr (List.mem_filter.mpr ⟨hmem, hkeep⟩)
    simp only [queryMessages, applyLimitOffset, hoff, Int.toNat_zero,
      List.drop_zero]
    by_cases hlim : f.limit < 0
    · rw [if_pos hlim]
      exact hsort
    · rw [if_neg hlim]
      have hle : (sortByBool (fun a b => b.timestamp ≤ a.timestamp)
          (db.messages.filter (msgRowKeep f matchFn))).length ≤
            f.limit.toNat := by
        rw [length_sortByBool]
        omega
      rw [List.take_of_length_le hle]
      exact hsort

/-- Witness for the amended C9 theorem: the stored soft-deleted row is
returned by an `include_deleted = true` query over its store. -/
theorem queryMessages_soft_delete_visibility_witness :
    c9DelRow ∈ queryMessages c9Db { includeDeleted := true }
      (fun _ _ => true) :=
  queryMessages_soft_delete_visibility.2.2.2 c9Db { includeDeleted := true }
    (fun _ _ => true) c9DelRow rfl (List.mem_singleton.mpr rfl) rfl rfl
    (by decide)

theorem orNullStr_of_truthy (v : Option String) (h : strTruthy v = true) :
    orNullStr v = v := by
  rw [orNullStr, if_pos h]

theorem insertMessage_empty_ok (m : MessageData) (H : String → String) (now : Int)
    (hv : validMessageData m = true) :
    insertMessage emptyDB m true H now =
      .ok { emptyDB with messages := [mkMessageRow emptyDB m H now] } (some 1) := by
  rw [validMessageData, Bool.and_eq_true] at hv
  obtain ⟨hdir, hrep⟩ := hv
  have hdup1 : isDuplicate emptyDB m H = false := by
    simp [isDuplicate, emptyDB]
  have hrepn : orNullStr m.reply_to_id = none := Option.isNone_iff_eq_none.mp hrep
  have hcon : messageConstraintsOk emptyDB (mkMessageRow emptyDB m H now) = true := by
    simp only [Bool.or_eq_true, beq_iff_eq] at hdir
    simp [messageConstraintsOk, emptyDB, mkMessageRow, hrepn, hdir]
  simp only [insertMessage]
  rw [if_neg (by rw [Bool.true_and, hdup1]; exact Bool.false_ne_true), if_pos hcon]
  rfl

theorem insertMessage_skip_dup (db : ArchiveDB) (m : MessageData)
    (H : String → String) (now : Int) (h : isDuplicate db m H = true) :
    insertMessage db m true H now = .ok db none := by
  simp [insertMessage, h]

/-- C2 (counterexample): two messages with equal (null) sender, equal
content and timestamps 500 ms apart satisfy the third disjunct of the
claimed duplicate predicate, yet batch-inserting them into an empty store
inserts both (2 rows, inserted = 2, skipped = 0): Stage 3 is guarded by
the JS truthiness of the incoming sender id and content text. -/
theorem dedup_stage3_counterexample :
    (c2M1.sender_id = c2M2.sender_id ∧ c2M1.content_text = c2M2.content_text ∧
      (c2M1.timestamp - c2M2.timestamp).natAbs < 1000) ∧
    (insertBatch emptyDB [c2M1, c2M2] (fun s => s) 0).map
      (fun x => (x.1.messages.length, x.2.1, x.2.2)) = some (2, 2, 0) :=
  ⟨⟨rfl, rfl, by decide⟩, by decide⟩

/-- C2 (amended): inserting `m1` then `m2` into an empty store with
`skip_if_exists` leaves exactly one row and returns no rowid for the
second insert, provided `m1` is insertable (CHECK and FK hold) and one of
the three stages fires: equal ids, equal fingerprints, or — with `m2`'s
sender id and content text JS-truthy — equal sender, equal content and
timestamps less than 1000 ms apart. -/
theorem insertMessage_dedup_sound (m1 m2 : MessageData) (H : String → String)
    (now : Int) (hv : validMessageData m1 = true)
    (hdup : m1.message_id = m2.message_id ∨
      hashMessage m2 H = hashMessage m1 H ∨
      (strTruthy m2.sender_id = true ∧ strTruthy m2.content_text = true ∧
        m1.sender_id = m2.sender_id ∧ m1.content_text = m2.content_text ∧
        (m1.timestamp - m2.timestamp).natAbs < 1000)) :
    ∃ db1, insertMessage emptyDB m1 true H now = .ok db1 (some 1) ∧
      db1.messages.length = 1 ∧
      insertMessage db1 m2 true H now = .ok db1 none := by
  refine ⟨{ emptyDB with messages := [mkMessageRow emptyDB m1 H now] },
    insertMessage_empty_ok m1 H now hv, rfl, ?_⟩
  apply insertMessage_skip_dup
  rcases hdup with h | h | ⟨hs, hc, hse, hce, hts⟩
  · simp [isDuplicate, mkMessageRow, h]
  · simp [isDuplicate, mkMessageRow, h]
  · have hs1 : strTruthy m1.sender_id = true := by
      rw [hse]
      exact hs
    have hc1 : strTruthy m1.content_text = true := by
      rw [hce]
      exact hc
    have e1 : orNullStr m1.sender_id = m2.sender_id := by
      rw [orNullStr_of_truthy _ hs1, hse]
    have e2 : orNullStr m1.content_text = m2.content_text := by
      rw [orNullStr_of_truthy _ hc1, hce]
    simp [isDuplicate, mkMessageRow, hs, hc, e1, e2, hts]

/-- Witness for the amended C2 theorem: two messages from sender `a`,
content `x`, 500 ms apart, distinct ids — the second insert is skipped
and one row remains. -/
theorem insertMessage_dedup_sound_witness :
    ∃ db1, insertMessage emptyDB c2W1 true (fun s => s) 0 = .ok db1 (some 1) ∧
      db1.messages.length = 1 ∧
      insertMessage db1 c2W2 true (fun s => s) 0 = .ok db1 none :=
  insertMessage_dedup_sound c2W1 c2W2 (fun s => s) 0 (by decide)
    (Or.inr (Or.inr ⟨by decide, by decide, by decide, by decide, by decide⟩))

/-- C10: the WhatsApp export normalizer mints
`whatsapp_export_<timestamp>_<sender with whitespace runs replaced by
underscores>` — a function of the parsed datetime and sender alone — so
two lines with the same sender, date and time (minute granularity)
receive identical message ids even with different texts, and ingesting
them in order keeps only the first: the second is rejected by the
Stage-1 exact-id duplicate check. -/
theorem whatsapp_export_id_collision (p1 p2 : WAParsedLine)
    (parseDateTime : String → Int) (H : String → String) (now : Int)
    (hsender : p1.sender = p2.sender) (hdate : p1.date = p2.date)
    (htime : p1.time = p2.time) :
    (∀ pd : WAParsedLine,
        (waNormalizeMessage pd parseDateTime now).message_id =
          "whatsapp_export_" ++
            toString (parseDateTime (pd.date ++ " " ++ pd.time)) ++ "_" ++
            replaceWsRuns pd.sender) ∧
    (waNormalizeMessage p1 parseDateTime now).message_id =
      (waNormalizeMessage p2 parseDateTime now).message_id ∧
    ∃ db1,
      insertMessage emptyDB (waNormalizeMessage p1 parseDateTime now) true H now =
        .ok db1 (some 1) ∧
      db1.messages.length = 1 ∧
      insertMessage db1 (waNormalizeMessage p2 parseDateTime now) true H now =
        .ok db1 none := by
  have hids : (waNormalizeMessage p1 parseDateTime now).message_id =
      (waNormalizeMessage p2 parseDateTime now).message_id := by
    simp only [waNormalizeMessage, hsender, hdate, htime]
  refine ⟨fun pd => rfl, hids, ?_⟩
  have hv1 : validMessageData (waNormalizeMessage p1 parseDateTime now) = true := by
    by_cases h : (p1.sender == "You") = true <;>
      simp [validMessageData, waNormalizeMessage, h, orNullStr, strTruthy]
  refine ⟨{ emptyDB with
      messages := [mkMessageRow emptyDB (waNormalizeMessage p1 parseDateTime now) H now] },
    insertMessage_empty_ok _ H now hv1, rfl, ?_⟩
  apply insertMessage_skip_dup
  simp [isDuplicate, mkMessageRow, hids]

/-- Witness for the C10 theorem: the two fixture lines (same sender
`Alice B`, same minute, texts `Hi` and `See you`) collide and the second
is skipped. -/
theorem whatsapp_export_id_collision_witness :
    (waNormalizeMessage c10P1 (fun _ => 1000) 0).message_id =
      (waNormalizeMessage c10P2 (fun _ => 1000) 0).message_id ∧
    ∃ db1,
      insertMessage emptyDB (waNormalizeMessage c10P1 (fun _ => 1000) 0) true
        (fun s => s) 0 = .ok db1 (some 1) ∧
      db1.messages.length = 1 ∧
      insertMessage db1 (waNormalizeMessage c10P2 (fun _ => 1000) 0) true
        (fun s => s) 0 = .ok db1 none :=
  ⟨(whatsapp_export_id_collision c10P1 c10P2 (fun _ => 1000) (fun s => s) 0
      rfl rfl rfl).2.1,
   (whatsapp_export_id_collision c10P1 c10P2 (fun _ => 1000) (fun s => s) 0
      rfl rfl rfl).2.2⟩

theorem find_map_upd (l : List StateRow) (k v : String) (now : Int)
    (h : l.any (fun r => r.key == k) = true) :
    (((l.map (fun r => if r.key == k then { r with value := v, updated_at := now }
        else r)).find? (fun r => r.key == k)).map (fun r => r.value)) = some v := by
  induction l with
  | nil => simp at h
  | cons x xs ih =>
    rw [List.map_cons]
    rcases Bool.eq_false_or_eq_true (x.key == k) with hx | hx
    · have h1 : (if (x.key == k) = true then
          ({ key := x.key, value := v, updated_at := now } : StateRow) else x) =
          { key := x.key, value := v, updated_at := now } := if_pos hx
      show ((((if (x.key == k) = true then
          ({ key := x.key, value := v, updated_at := now } : StateRow) else x)) ::
          xs.map (fun r => if r.key == k then { r with value := v, updated_at := now }
            else r)).find? (fun r => r.key == k)).map (fun r => r.value) = some v
      rw [h1, @List.find?_cons_of_pos StateRow (fun r => r.key == k)
        ({ key := x.key, value := v, updated_at := now } : StateRow)
        (xs.map (fun r => if r.key == k then { r with value := v, updated_at := now }
          else r)) hx]
      rfl
    · have h1 : (if (x.key == k) = true then
          ({ key := x.key, value := v, updated_at := now } : StateRow) else x) = x :=
        if_neg (by simp [hx])
      show ((((if (x.key == k) = true then
          ({ key := x.key, value := v, updated_at := now } : StateRow) else x)) ::
          xs.map (fun r => if r.key == k then { r with value := v, updated_at := now }
            else r)).find? (fun r => r.key == k)).map (fun r => r.value) = some v
      rw [h1, @List.find?_cons_of_neg StateRow (fun r => r.key == k) x
        (xs.map (fun r => if r.key == k then { r with value := v, updated_at := now }
          else r)) (by simp [hx])]
      apply ih
      rw [List.any_cons, hx, Bool.false_or] at h
      exact h

theorem find_append_new (l : List StateRow) (k v : String) (now : Int)
    (h : l.any (fun r => r.key == k) = false) :
    (((l ++ [({ key := k, value := v, updated_at := now } : StateRow)]).find?
        (fun r => r.key == k)).map (fun r => r.value)) = some v := by
  induction l with
  | nil =>
    rw [List.nil_append, @List.find?_cons_of_pos StateRow (fun r => r.key == k)
      ({ key := k, value := v, updated_at := now } : StateRow) [] (by simp)]
    rfl
  | cons x xs ih =>
    rw [List.any_cons] at h
    obtain ⟨hx, hxs⟩ := Bool.or_eq_false_iff.mp h
    rw [List.cons_append, @List.find?_cons_of_neg StateRow (fun r => r.key == k) x
      (xs ++ [({ key := k, value := v, updated_at := now } : StateRow)]) (by simp [hx])]
    exact ih hxs

theorem checkpointGet_set (db : ArchiveDB) (k v : String) (now : Int) :
    checkpointGet (checkpointSet db k v now) k = some v := by
  rw [checkpointSet, checkpointGet]
  by_cases h : db.state.any (fun r => r.key == k) = true
  · rw [if_pos h]
    exact find_map_upd db.state k v now h
  · rw [if_neg h]
    exact find_append_new db.state k v now (Bool.eq_false_iff.mpr h)

theorem checkpointSet_tables (db : ArchiveDB) (k v : String) (now : Int) :
    (checkpointSet db k v now).events = db.events ∧
    (checkpointSet db k v now).messages = db.messages ∧
    (checkpointSet db k v now).edits = db.edits ∧
    (checkpointSet db k v now).thinking_blocks = db.thinking_blocks ∧
    (checkpointSet db k v now).usage_stats = db.usage_stats := by
  rw [checkpointSet]
  split <;> exact ⟨rfl, rfl, rfl, rfl, rfl⟩

theorem scan_checkpoint (db : ArchiveDB) (file : List Line) (sid : String)
    (force : Bool) (now : Int) :
    checkpointGet (scanEventsFile db file sid force now).1 EVENTS_CHECKPOINT_KEY =
      some (toString now) := by
  unfold scanEventsFile
  exact checkpointGet_set _ _ _ _

theorem parseEvents_filtered (file : List Line) (w : Int)
    (hts : ∀ r, Line.record r ∈ file → ∃ t, rawTimestamp r = some t ∧ t ≤ w) :
    parseEvents file (some w) = [] := by
  induction file with
  | nil => rfl
  | cons l ls ih =>
    rw [parseEvents, List.flatMap_cons]
    have h2 : parseEvents ls (some w) = [] :=
      ih (fun r hr => hts r (List.mem_cons_of_mem _ hr))
    rw [parseEvents] at h2
    rw [h2, List.append_nil]
    cases l with
    | blank => rfl
    | malformed => rfl
    | record r =>
      obtain ⟨t, h1, hle⟩ := hts r (List.mem_cons_self _ _)
      rw [parseLineStep, h1]
      simp [jsLeOpt, hle]

theorem scanEventsFile_empty (db : ArchiveDB) (file : List Line) (sid : String)
    (now2 w : Int)
    (hstored : checkpointGet db EVENTS_CHECKPOINT_KEY = some (toString w))
    (hne : toString w ≠ "")
    (hparse : jsParseInt (toString w) = some w)
    (hpe : parseEvents file (some w) = []) :
    scanEventsFile db file sid false now2 =
      (checkpointSet db EVENTS_CHECKPOINT_KEY (toString now2) now2,
        ({} : BatchResult)) := by
  have hS : strTruthy (some (toString w)) = true := by
    simp [strTruthy, hne]
  rw [scanEventsFile, hstored]
  simp [hS, hparse, hpe]

/-- C1 (counterexample): scanning the one-record fixture file at wall
clock 2000 inserts its event; an immediately repeated scan at 3000 is
stopped by the checkpoint watermark, so it reports skipped = 0 rather
than `skipped ≥ events_in(F) = 1`, and the checkpoint row differs
between scan∘scan and scan, so the literal state equality fails too. -/
theorem scanEvents_idempotence_counterexample :
    c1File.length = 1 ∧
    (scanEventsFile emptyDB c1File "S" false 2000).2.inserted = 1 ∧
    (scanEventsFile (scanEventsFile emptyDB c1File "S" false 2000).1
        c1File "S" false 3000).2 =
      { inserted := 0, skipped := 0, errors := 0 } ∧
    (scanEventsFile (scanEventsFile emptyDB c1File "S" false 2000).1
        c1File "S" false 3000).1.state ≠
      (scanEventsFile emptyDB c1File "S" false 2000).1.state :=
  ⟨rfl, by decide, by decide, by decide⟩

/-- C1 (amended): rescanning a file whose record timestamps all lie at
or below the first scan's wall clock is a no-op on every archive table —
the watermark (the checkpoint written by the first scan) filters every
line, the batch is skipped, and the second scan reports
inserted = skipped = errors = 0 (not `skipped ≥ events_in(F)`); only the
checkpoint row in `state` advances, so equality holds for the archive
content, not the literal full state. -/
theorem scanEvents_second_scan_noop (db0 : ArchiveDB) (file : List Line)
    (sid1 sid2 : String) (now1 now2 : Int)
    (hts : ∀ r, Line.record r ∈ file → ∃ t, rawTimestamp r = some t ∧ t ≤ now1)
    (hparse : jsParseInt (toString now1) = some now1) :
    ((scanEventsFile (scanEventsFile db0 file sid1 false now1).1 file sid2
        false now2).1.events = (scanEventsFile db0 file sid1 false now1).1.events ∧
      (scanEventsFile (scanEventsFile db0 file sid1 false now1).1 file sid2
        false now2).1.messages = (scanEventsFile db0 file sid1 false now1).1.messages ∧
      (scanEventsFile (scanEventsFile db0 file sid1 false now1).1 file sid2
        false now2).1.edits = (scanEventsFile db0 file sid1 false now1).1.edits ∧
      (scanEventsFile (scanEventsFile db0 file sid1 false now1).1 file sid2
        false now2).1.thinking_blocks =
        (scanEventsFile db0 file sid1 false now1).1.thinking_blocks ∧
      (scanEventsFile (scanEventsFile db0 file sid1 false now1).1 file sid2
        false now2).1.usage_stats =
        (scanEventsFile db0 file sid1 false now1).1.usage_stats) ∧
    (scanEventsFile (scanEventsFile db0 file sid1 false now1).1 file sid2
      false now2).2 = { inserted := 0, skipped := 0, errors := 0 } := by
  have hne : toString now1 ≠ "" := by
    intro h0
    rw [h0] at hparse
    have h1 : (none : Option Int) = some now1 := hparse
    exact Option.noConfusion h1
  have hstored := scan_checkpoint db0 file sid1 false now1
  have hpe : parseEvents file (some now1) = [] := parseEvents_filtered file now1 hts
  have h2 := scanEventsFile_empty (scanEventsFile db0 file sid1 false now1).1
    file sid2 now2 now1 hstored hne hparse hpe
  rw [h2]
  exact ⟨checkpointSet_tables _ _ _ _, rfl⟩

/-- Witness for the amended C1 theorem: the second scan of the fixture
file reports all-zero counters. -/
theorem scanEvents_second_scan_noop_witness :
    (scanEventsFile (scanEventsFile emptyDB c1File "S" false 2000).1
      c1File "S" false 3000).2 = { inserted := 0, skipped := 0, errors := 0 } :=
  (scanEvents_second_scan_noop emptyDB c1File "S" "S" 2000 3000
    (by
      intro r hr
      rw [c1File, List.mem_singleton] at hr
      injection hr with h0
      subst h0
      exact ⟨1000, rfl, by decide⟩)
    (by decide)).2

theorem jlookup_setKey_ne (kvs : List (String × Json)) (k : String) (v : Json)
    (q : String) (h : k ≠ q) :
    jlookup q (setKey kvs k v) = jlookup q kvs := by
  induction kvs with
  | nil => simp [setKey, jlookup, h]
  | cons kv rest ih =>
    obtain ⟨k1, v1⟩ := kv
    rw [setKey]
    by_cases h1 : k1 = k
    · rw [if_pos h1, jlookup, if_neg h, jlookup, if_neg (fun hq => h (h1 ▸ hq))]
    · rw [if_neg h1, jlookup, jlookup]
      by_cases h2 : k1 = q
      · rw [if_pos h2, if_pos h2]
      · rw [if_neg h2, if_neg h2]
        exact ih

theorem jlookup_foldl_setKey (kvs : List (String × Json))
    (target : List (String × Json)) (q : String) (h : ∀ kv ∈ kvs, kv.1 ≠ q) :
    jlookup q (kvs.foldl (fun acc kv => setKey acc kv.1 kv.2) target) =
      jlookup q target := by
  induction kvs generalizing target with
  | nil => rfl
  | cons kv rest ih =>
    rw [List.foldl_cons,
      ih (setKey target kv.1 kv.2) (fun a ha => h a (List.mem_cons_of_mem _ ha))]
    exact jlookup_setKey_ne target kv.1 kv.2 q (h kv (List.mem_cons_self _ _))

theorem jlookup_assign_clear (target : List (String × Json)) (src : Json)
    (q : String)
    (hq : (q == "type" || q == "id" || q == "timestamp" || q == "parentId") = true)
    (hc : bodyKeysClear src = true) :
    jlookup q (jsonAssign target src) = jlookup q target := by
  cases src with
  | obj kvs =>
    rw [jsonAssign]
    apply jlookup_foldl_setKey
    intro kv hkv he
    rw [bodyKeysClear] at hc
    have h1 := (List.all_eq_true.mp hc) kv hkv
    rw [he, hq] at h1
    exact Bool.noConfusion h1
  | null => rfl
  | bool b => rfl
  | num n => rfl
  | str s => rfl
  | arr a => rfl

theorem exportLine_fields (e : EventRow) (t : Int) (isoOfMs : Int → String)
    (hc : bodyKeysClear e.content_json = true) :
    ∃ kvs, exportLine e t isoOfMs = Json.obj kvs ∧
      jlookup "id" kvs = some (Json.str e.event_id) ∧
      jlookup "type" kvs = some (Json.str (if e.event_type == "tool_result"
        then "message" else e.event_type)) ∧
      jlookup "timestamp" kvs = some (Json.str (isoOfMs t)) ∧
      jlookup "parentId" kvs = (if strTruthy e.parent_event_id then
        some (Json.str (e.parent_event_id.getD "")) else none) := by
  refine ⟨_, rfl, ?_, ?_, ?_, ?_⟩
  · rw [jlookup_assign_clear _ _ _ (by decide) hc]
    by_cases hp : strTruthy e.parent_event_id = true
    · rw [if_pos hp]
      rfl
    · rw [if_neg hp]
      rfl
  · rw [jlookup_assign_clear _ _ _ (by decide) hc]
    by_cases hp : strTruthy e.parent_event_id = true
    · rw [if_pos hp]
      rfl
    · rw [if_neg hp]
      rfl
  · rw [jlookup_assign_clear _ _ _ (by decide) hc]
    by_cases hp : strTruthy e.parent_event_id = true
    · rw [if_pos hp]
      rfl
    · rw [if_neg hp]
      rfl
  · rw [jlookup_assign_clear _ _ _ (by decide) hc]
    by_cases hp : strTruthy e.parent_event_id = true
    · rw [if_pos hp, if_pos hp]
      rfl
    · rw [if_neg hp, if_neg hp]
      rfl

/-- C6 (counterexample): a stored non-synthetic event whose `content_json`
body carries its own `id` key has that key win the `Object.assign` merge:
the emitted line reports id `EVIL` although the stored event id is `E`,
so the claimed id preservation fails. -/
theorem export_line_overwrite_counterexample :
    c6EvilRow.event_id = "E" ∧
    exportSessionAsJsonl c6Db "S" (fun t => toString t) =
      [Json.obj [("type", Json.str "custom"), ("id", Json.str "EVIL"),
        ("timestamp", Json.str "5")]] :=
  ⟨rfl, rfl⟩

/-- C6 (amended): the export emits exactly one line per stored
non-synthetic event of the session; provided an event body is free of
the reserved keys `type`, `id`, `timestamp`, `parentId`, its line
preserves the event id, carries `parentId` exactly when the stored
parent id is truthy (non-null and non-empty), carries the stored type
except that `tool_result` is re-emitted as `message`, and carries the
ISO rendering of the stored timestamp, a NULL timestamp rendering as
millisecond 0 (the 1970 epoch, since `new Date(null)` is the epoch and
SQLite stores a NaN bind as NULL). -/
theorem exportSessionJsonl_lines (db : ArchiveDB) (sid : String)
    (isoOfMs : Int → String)
    (hC : ∀ e ∈ db.events, (e.session_id == some sid) = true →
      isSyntheticType e.event_type = false → bodyKeysClear e.content_json = true) :
    (exportSessionAsJsonl db sid isoOfMs).length =
      ((db.events.filter (fun r => r.session_id == some sid)).filter
        (fun e => !isSyntheticType e.event_type)).length ∧
    ∀ j ∈ exportSessionAsJsonl db sid isoOfMs, ∃ e, e ∈ db.events ∧
      (e.session_id == some sid) = true ∧
      isSyntheticType e.event_type = false ∧
      ∃ kvs, j = Json.obj kvs ∧
        jlookup "id" kvs = some (Json.str e.event_id) ∧
        jlookup "type" kvs = some (Json.str (if e.event_type == "tool_result"
          then "message" else e.event_type)) ∧
        jlookup "timestamp" kvs = some (Json.str (isoOfMs (e.timestamp.getD 0))) ∧
        jlookup "parentId" kvs = (if strTruthy e.parent_event_id then
          some (Json.str (e.parent_event_id.getD "")) else none) := by
  have hmemkept : ∀ e ∈ (getSessionEvents db sid).filter
      (fun e => !isSyntheticType e.event_type),
      e ∈ db.events ∧ (e.session_id == some sid) = true ∧
        isSyntheticType e.event_type = false := by
    intro e he
    have h1 := List.mem_filter.mp he
    rw [getSessionEvents] at h1
    have h2 := (mem_sortByBool _ _ e).mp h1.1
    have h3 := List.mem_filter.mp h2
    refine ⟨h3.1, h3.2, ?_⟩
    have := h1.2
    rwa [Bool.not_eq_true'] at this
  constructor
  · rw [exportSessionAsJsonl, List.length_map]
    have hperm : List.Perm (getSessionEvents db sid)
        (db.events.filter (fun r => r.session_id == some sid)) := by
      rw [getSessionEvents]
      exact sortByBool_perm _ _
    exact (hperm.filter _).length_eq
  · intro j hj
    rw [exportSessionAsJsonl] at hj
    obtain ⟨e, he, rfl⟩ := List.mem_map.mp hj
    obtain ⟨hmem, hsess, hsyn⟩ := hmemkept e he
    obtain ⟨kvs, hk1, hk2, hk3, hk4, hk5⟩ :=
      exportLine_fields e (e.timestamp.getD 0) isoOfMs (hC e hmem hsess hsyn)
    exact ⟨e, hmem, hsess, hsyn, kvs, hk1, hk2, hk3, hk4, hk5⟩

/-- Witness for the amended C6 theorem: the single-event store whose
`tool_result` row has a clean body and parent `P` exports one line with
the preserved id, the rendered timestamp, `parentId = P` and type
rewritten to `message`. -/
theorem exportSessionJsonl_lines_witness :
    (exportSessionAsJsonl c6GoodDb "S" (fun t => toString t)).length =
      ((c6GoodDb.events.filter (fun r => r.session_id == some "S")).filter
        (fun e => !isSyntheticType e.event_type)).length ∧
    ∀ j ∈ exportSessionAsJsonl c6GoodDb "S" (fun t => toString t), ∃ e,
      e ∈ c6GoodDb.events ∧ (e.session_id == some "S") = true ∧
      isSyntheticType e.event_type = false ∧
      ∃ kvs, j = Json.obj kvs ∧
        jlookup "id" kvs = some (Json.str e.event_id) ∧
        jlookup "type" kvs = some (Json.str (if e.event_type == "tool_result"
          then "message" else e.event_type)) ∧
        jlookup "timestamp" kvs = some (Json.str (toString (e.timestamp.getD 0))) ∧
        jlookup "parentId" kvs = (if strTruthy e.parent_event_id then
          some (Json.str (e.parent_event_id.getD "")) else none) :=
  exportSessionJsonl_lines c6GoodDb "S" (fun t => toString t) (by decide)
